import Mathlib

/-!
ga-report-cli: a verification development of `main.go`.

The program is one Go file.  Its pure parts are embedded as Lean functions;
the parts with effects (the writer `w`, the callback handler, the token
cache) are embedded with the effect made an explicit value.

A Go `string` is embedded as a list of characters.  Every separator and
pattern the program uses (`","`, `":"`, `"ga:"`, `"\t"`, `"\n"`) is ASCII, so
splitting, searching, trimming and joining act the same on characters as on
bytes.
-/

namespace GaReportCli

/-- A Go `string`. -/
abbrev Str := List Char

/-! ## The `strings` functions the program calls -/

/-- Go's `strings.Split(s, sep)` for a one-character separator, the only kind the
program passes (`","`).  The pieces between the separators, in order; an
input without separator (the empty string too) gives one piece. -/
def Split : Str → Char → List Str
  | [], _ => [[]]
  | c :: cs, sep =>
    if c = sep then [] :: Split cs sep
    else
      match Split cs sep with
      | [] => [[c]]
      | p :: ps => (c :: p) :: ps

/-- Go's `strings.Join(elems, sep)`. -/
def Join : List Str → Str → Str
  | [], _ => []
  | [a], _ => a
  | a :: b :: rest, sep => a ++ sep ++ Join (b :: rest) sep

/-- Go's `strings.HasPrefix(s, p)`. -/
def HasPrefix (s p : Str) : Bool := p.isPrefixOf s

/-- Go's `strings.Contains(s, substr)`: `substr` starts at some position of `s`. -/
def Contains (s substr : Str) : Bool := s.tails.any (fun t => HasPrefix t substr)

/-- Go's `strings.TrimPrefix(s, p)`: `s` without the leading `p`, or `s` itself
when it does not start with `p`. -/
def TrimPrefix (s p : Str) : Str := if HasPrefix s p then s.drop p.length else s

/-! ## `fixupWithGaPrefix` (main.go 42-54) -/

/-- The string literal `"ga:"`. -/
def gaPrefix : Str := ['g', 'a', ':']

/-- The body of the loop of `fixupWithGaPrefix`: the value stored in
`result[i]` for `name`. -/
def fixupName (name : Str) : Str :=
  if Contains name [':'] = false then gaPrefix ++ name else name

/-- The function `fixupWithGaPrefix(namesString)`. -/
def fixupWithGaPrefix (namesString : Str) : Str :=
  Join ((Split namesString ',').map fixupName) [',']

/-! ## The report and the renderer (main.go 91-115) -/

/-- One element of `gaData.ColumnHeaders`; the program reads only `Name`. -/
structure ColumnHeader where
  Name : Str
  deriving DecidableEq, Repr

/-- The part of `analytics.GaData` the program reads. -/
structure GaData where
  ColumnHeaders : List ColumnHeader
  Rows : List (List Str)
  deriving DecidableEq, Repr

/-- The loop of lines 94-97: `headers`, grown by one `append` per column
header. -/
def displayHeaders (columnHeaders : List ColumnHeader) : List Str :=
  columnHeaders.foldl (fun headers header => headers ++ [TrimPrefix header.Name gaPrefix]) []

/-- A Go `map[string]string`, as the list of its key/value pairs; a key
occurs at most once. -/
abbrev Entry := List (Str × Str)

/-- The map read `m[k]`, with `none` for an absent key. -/
def mapIndex (m : Entry) (k : Str) : Option Str :=
  match m.find? (fun p => p.1 = k) with
  | some p => some p.2
  | none => none

/-- The map assignment `m[k] = v`: a value already stored under `k` is
replaced. -/
def mapAssign (m : Entry) (k v : Str) : Entry :=
  (k, v) :: m.filter (fun p => p.1 ≠ k)

/-- The ways the rendering part of `main` panics. -/
inductive Panic where
  /-- the read `row[i]` with `i` not below `len(row)` (line 105) -/
  | indexOutOfRange
  /-- the call of `template.Must` on a format that does not parse (line 111) -/
  | templateParse
  deriving DecidableEq, Repr

deriving instance DecidableEq for Except

/-- The loop of lines 104-106 from index `i` on: `entry[header] = row[i]`
for the remaining headers. -/
def buildEntryFrom (row : List Str) : Nat → List Str → Entry → Except Panic Entry
  | _, [], entry => .ok entry
  | i, header :: rest, entry =>
    match row[i]? with
    | none => .error .indexOutOfRange
    | some v => buildEntryFrom row (i + 1) rest (mapAssign entry header v)

/-- Lines 103-106: the `entry` of one row. -/
def buildEntry (headers : List Str) (row : List Str) : Except Panic Entry :=
  buildEntryFrom row 0 headers []

/-! ### The template library

`text/template` is a library, not part of the repository.  `main` is
embedded with the library as a parameter; next to it stands a model of the
library for templates of literal text and field references. -/

/-- The template library as `main` uses it: parsing a text gives a parse
error (`none`) or a template, which is represented by the text that
`tmpl.Execute(w, entry)` writes to `w` for an `entry` (the error `Execute`
may return is dropped by `main`). -/
abbrev TemplateEngine := Str → Option (Entry → Str)

/-- Go's `fmt.Fprintln(w, s)`: the content of `w` afterwards. -/
def Fprintln (w s : Str) : Str := w ++ s ++ ['\n']

/-- The loop of lines 102-114 over the remaining rows; `w` is what has been
written so far. -/
def renderRowsWith (engine : TemplateEngine) (format : Str) (headers : List Str) :
    List (List Str) → Str → Except Panic Str
  | [], w => .ok w
  | row :: rest, w =>
    match buildEntry headers row with
    | .error p => .error p
    | .ok entry =>
      if format = [] then
        renderRowsWith engine format headers rest (Fprintln w (Join row ['\t']))
      else
        match engine (format ++ ['\n']) with
        | none => .error .templateParse
        | some exec => renderRowsWith engine format headers rest (w ++ exec entry)

/-- Lines 94-114 of `main`: everything written to the tab writer `w` before
`w.Flush()`, or the panic that ends the run. -/
def renderWith (engine : TemplateEngine) (format : Str) (gaData : GaData) : Except Panic Str :=
  let headers := displayHeaders gaData.ColumnHeaders
  let w := if format = [] then Fprintln [] (Join headers ['\t']) else []
  renderRowsWith engine format headers gaData.Rows w

/-- Modelled on the library `text/template`: a node of a parsed template,
which is literal text or the field access `{{.name}}`. -/
inductive Node where
  | text (s : Str)
  | field (name : Str)
  deriving DecidableEq, Repr

/-- Modelled on the library `text/template`: a parsed template. -/
abbrev Template := List Node

/-- Modelled on the library `text/template`: the characters of a field name
(here the ASCII letters, the digits and the underscore). -/
def isAlphaNumeric (c : Char) : Bool := c = '_' || c.isAlpha || c.isDigit

/-- Modelled on the library `text/template`: the blanks allowed inside an
action. -/
def isBlank (c : Char) : Bool := c = ' ' || c = '\t'

/-- Modelled on the library `text/template`: the pending literal text
becomes a node, unless it is empty. -/
def flushText (nodes : List Node) (acc : Str) : List Node :=
  if acc = [] then nodes else nodes ++ [Node.text acc]

/-- Modelled on the library `text/template`: the states of the scanner. -/
inductive LexState where
  /-- in literal text; `acc` is the text since the last action -/
  | text (nodes : List Node) (acc : Str)
  /-- literal text followed by one `{` -/
  | leftBrace (nodes : List Node) (acc : Str)
  /-- after `{{` and blanks -/
  | action (nodes : List Node)
  /-- just after the `.` of a field -/
  | dot (nodes : List Node)
  /-- inside the field name -/
  | field (nodes : List Node) (name : Str)
  /-- after the field name and blanks -/
  | afterField (nodes : List Node) (name : Str)
  /-- after the field name and one `}` -/
  | rightBrace (nodes : List Node) (name : Str)
  /-- a syntax error, or an action other than a field access -/
  | failed
  deriving DecidableEq, Repr

/-- Modelled on the library `text/template`: the scanner reads one
character. -/
def lexStep : LexState → Char → LexState
  | .text nodes acc, c =>
    if c = '{' then .leftBrace nodes acc else .text nodes (acc ++ [c])
  | .leftBrace nodes acc, c =>
    if c = '{' then .action (flushText nodes acc) else .text nodes (acc ++ ['{', c])
  | .action nodes, c =>
    if c = '.' then .dot nodes
    else if isBlank c then .action nodes
    else .failed
  | .dot nodes, c =>
    if isAlphaNumeric c && !c.isDigit then .field nodes [c] else .failed
  | .field nodes name, c =>
    if isAlphaNumeric c then .field nodes (name ++ [c])
    else if c = '}' then .rightBrace nodes name
    else if isBlank c then .afterField nodes name
    else .failed
  | .afterField nodes name, c =>
    if c = '}' then .rightBrace nodes name
    else if isBlank c then .afterField nodes name
    else .failed
  | .rightBrace nodes name, c =>
    if c = '}' then .text (nodes ++ [Node.field name]) [] else .failed
  | .failed, _ => .failed

/-- Modelled on the library `text/template`: the end of the input; an action
left open is an error. -/
def lexEnd : LexState → Option Template
  | .text nodes acc => some (flushText nodes acc)
  | .leftBrace nodes acc => some (flushText nodes (acc ++ ['{']))
  | _ => none

/-- Modelled on the library `text/template`: `template.New("format").Parse(text)`
on templates of literal text and field accesses `{{.name}}`; `none` is a
parse error (or an action this model does not cover). -/
def Parse (text : Str) : Option Template :=
  lexEnd (text.foldl lexStep (.text [] []))

/-- Modelled on the library `text/template`: what the library prints for a
field whose key is absent from the map. -/
def noValue : Str := "<no value>".toList

/-- Modelled on the library `text/template`: what one node writes for a map
`entry`; a field whose key the map lacks is printed as `<no value>`. -/
def execNode (entry : Entry) : Node → Str
  | .text s => s
  | .field name =>
    match mapIndex entry name with
    | some v => v
    | none => noValue

/-- Modelled on the library `text/template`: `tmpl.Execute(w, entry)`: the
text written to `w`. -/
def Execute : Template → Entry → Str
  | [], _ => []
  | node :: rest, entry => execNode entry node ++ Execute rest entry

/-- The model of `text/template` as a template library. -/
def textTemplate : TemplateEngine := fun text =>
  match Parse text with
  | some tmpl => some (Execute tmpl)
  | none => none

/-- Lines 94-114 of `main` with the model of `text/template`. -/
def render (format : Str) (gaData : GaData) : Except Panic Str :=
  renderWith textTemplate format gaData

/-! ### Measures used in the statements -/

/-- The concatenation of a list of strings: what a sequence of writes leaves
in a writer. -/
def concatAll : List Str → Str
  | [] => []
  | l :: ls => l ++ concatAll ls

/-- The literal text of a list of nodes, concatenated. -/
def nodeTexts : List Node → Str
  | [] => []
  | .text s :: rest => s ++ nodeTexts rest
  | .field _ :: rest => nodeTexts rest

/-- The literal text the scanner has read so far. -/
def stateText : LexState → Str
  | .text nodes acc => nodeTexts nodes ++ acc
  | .leftBrace nodes acc => nodeTexts nodes ++ acc
  | .action nodes => nodeTexts nodes
  | .dot nodes => nodeTexts nodes
  | .field nodes _ => nodeTexts nodes
  | .afterField nodes _ => nodeTexts nodes
  | .rightBrace nodes _ => nodeTexts nodes
  | .failed => []

/-- Whether a node is literal text or a reference to one of `headers`. -/
def knownNode (headers : List Str) : Node → Bool
  | .text _ => true
  | .field name => decide (name ∈ headers)

/-- A node with the reference to a name outside `headers` replaced by the
text the library prints for it. -/
def markUnknown (headers : List Str) : Node → Node
  | .text s => .text s
  | .field name => if name ∈ headers then .field name else .text noValue

/-- The characters the tab writer acts on: tab, vertical tab, newline and
form feed. -/
def isLayoutChar (c : Char) : Bool := c = '\t' || c = '\x0b' || c = '\n' || c = '\x0c'

/-- A text that is one line: it ends with a newline and holds no other
newline, no tab, no vertical tab and no form feed. -/
def singleLine (s : Str) : Prop :=
  s = s.dropLast ++ ['\n'] ∧ ∀ c ∈ s.dropLast, isLayoutChar c = false

instance (s : Str) : Decidable (singleLine s) :=
  inferInstanceAs (Decidable (s = s.dropLast ++ ['\n'] ∧ ∀ c ∈ s.dropLast, isLayoutChar c = false))

/-! ## The tab writer (main.go 91-92) -/

/-- The settings of a `tabwriter.Writer` that `Init` stores. -/
structure TabWriter where
  minwidth : Int
  tabwidth : Int
  padding : Int
  padchar : Char
  flags : Nat
  deriving DecidableEq, Repr

/-- The library call `w.Init(output, minwidth, tabwidth, padding, padchar,
flags)`, in the order in which `text/tabwriter` declares the parameters
(`output` left out). -/
def tabwriterInit (minwidth tabwidth padding : Int) (padchar : Char) (flags : Nat) : TabWriter :=
  { minwidth := minwidth, tabwidth := tabwidth, padding := padding,
    padchar := padchar, flags := flags }

/-- Line 92: `w.Init(os.Stdout, 0, 8, 1, '\t', 0)`. -/
def mainTabWriter : TabWriter := tabwriterInit 0 8 1 '\t' 0

/-- Modelled from the spec: the character that ends a cell for the tab
writer ("`\t` as the column delimiter recognized by the aligner"); the
library fixes it, `Init` has no parameter for it. -/
def cellDelimiter : Char := '\t'

/-! ### What the tab writer prints

`text/tabwriter` is a library, not part of the repository.  The model below
gives what a writer without flags (the setting of `main`) has printed after
`Flush`, as a function of all the text written to it.  The text is cut into
lines at newlines and form feeds and each line into cells at tabs and
vertical tabs; the cells that are ended by a tab, in a run of consecutive
lines that have such a cell at the same position, form a column, and each
cell of a column is padded to the width of the column.  The settings are
taken as non-negative numbers (`Init` panics on a negative one).  A string
here is valid UTF-8, so the escape byte `0xff` of the library does not
occur. -/

/-- Modelled on the library `text/tabwriter`: the characters that end a
cell. -/
def isCellEnd (c : Char) : Bool := c = '\t' || c = '\x0b'

/-- Modelled on the library `text/tabwriter`: the cells of a line that is
ended by a newline or a form feed; the text after the last tab is the last
cell, also when it is empty. -/
def splitCells : Str → List Str
  | [] => [[]]
  | c :: cs =>
    if isCellEnd c then [] :: splitCells cs
    else
      match splitCells cs with
      | [] => [[c]]
      | p :: ps => (c :: p) :: ps

/-- Modelled on the library `text/tabwriter`: the cells of the line that is
open when the writer is flushed; the text after the last tab is a cell only
when it is not empty. -/
def lastLineCells (line : Str) : List Str :=
  if (splitCells line).getLast? = some [] then (splitCells line).dropLast
  else splitCells line

/-- Modelled on the library `text/tabwriter`: the lines of a flush, each as
its list of cells; the last line is the open one. -/
def cellLines : List Str → List (List Str)
  | [] => []
  | [last] => [lastLineCells last]
  | line :: rest => splitCells line :: cellLines rest

/-- Modelled on the library `text/tabwriter`: whether a line has a cell in
column `j`, which is a cell other than its last. -/
def hasColumn (line : List Str) (j : Nat) : Bool := j + 1 < line.length

/-- Modelled on the library `text/tabwriter`: the width of column `j` over
the lines from the first of `lines` on, as far as they have a cell in this
column: the largest cell width plus padding, and at least `minwidth`. -/
def blockWidth (tw : TabWriter) (j : Nat) : List (List Str) → Nat
  | [] => tw.minwidth.toNat
  | line :: rest =>
    if hasColumn line j then
      max ((line.getD j []).length + tw.padding.toNat) (blockWidth tw j rest)
    else tw.minwidth.toNat

/-- Modelled on the library `text/tabwriter`: the padding written after a
cell of `textw` characters in a column of width `cellw`.  With the tab as
padding character the column width is rounded up to a multiple of the tab
width and the padding is made of tabs. -/
def writePadding (tw : TabWriter) (textw cellw : Nat) : Str :=
  if tw.padchar = '\t' then
    if tw.tabwidth.toNat = 0 then []
    else
      List.replicate
        (((cellw + tw.tabwidth.toNat - 1) / tw.tabwidth.toNat * tw.tabwidth.toNat - textw
          + tw.tabwidth.toNat - 1) / tw.tabwidth.toNat) '\t'
  else List.replicate (cellw - textw) tw.padchar

/-- Modelled on the library `text/tabwriter`: the cells of a line from
column `j` on, as printed: each cell but the last is followed by its
padding. -/
def writeCells (tw : TabWriter) (width : Nat → Nat) : Nat → List Str → Str
  | _, [] => []
  | _, [c] => c
  | j, c :: rest => c ++ writePadding tw c.length (width j) ++ writeCells tw width (j + 1) rest

/-- Modelled on the library `text/tabwriter`: the lines as printed; `before`
holds the lines already printed, the nearest first.  The width of a column
at a line is taken over the run of lines around it that have a cell in this
column. -/
def formatFrom (tw : TabWriter) : List (List Str) → List (List Str) → List Str
  | _, [] => []
  | before, line :: after =>
    writeCells tw
        (fun j => max (blockWidth tw j (line :: before)) (blockWidth tw j (line :: after)))
        0 line
      :: formatFrom tw (line :: before) after

/-- Modelled on the library `text/tabwriter`: what one flush prints for the
text collected since the flush before; every line but the last is followed
by a newline. -/
def formatSection (tw : TabWriter) (text : Str) : Str :=
  Join (formatFrom tw [] (cellLines (Split text '\n'))) ['\n']

/-- Modelled on the library `text/tabwriter`: the sections between form
feeds, printed one after the other; a form feed ends a line and flushes. -/
def writeSections (tw : TabWriter) : List Str → Str
  | [] => []
  | [last] => formatSection tw last
  | text :: rest => formatSection tw (text ++ ['\n']) ++ writeSections tw rest

/-- Modelled on the library `text/tabwriter`: what the writer has printed
after `Flush`, for all the text written to it. -/
def tabwriterFlush (tw : TabWriter) (text : Str) : Str :=
  writeSections tw (Split text '\x0c')

/-! ### The output of `main` -/

/-- Lines 91-115 of `main`: what is printed on the standard output when
`main` returns, or the panic that ends the run. -/
def mainOutputWith (engine : TemplateEngine) (format : Str) (gaData : GaData) :
    Except Panic Str :=
  match renderWith engine format gaData with
  | .ok w => .ok (tabwriterFlush mainTabWriter w)
  | .error p => .error p

/-- Lines 91-115 of `main` with the model of `text/template`. -/
def mainOutput (format : Str) (gaData : GaData) : Except Panic Str :=
  mainOutputWith textTemplate format gaData

/-- Template mode as the specification describes it, for a format that
parses to `tmpl`: the run ends normally and what is printed is, line by
line, the template expanded against the entry of each row, and nothing
else. -/
def emitsTemplateLines (format : Str) (tmpl : Template) (gaData : GaData) : Prop :=
  ∃ out entries, mainOutput format gaData = .ok out
    ∧ List.Forall₂ (fun row entry =>
        buildEntry (displayHeaders gaData.ColumnHeaders) row = .ok entry) gaData.Rows entries
    ∧ Split out '\n' = entries.map (Execute tmpl) ++ [[]]

/-! ## The callback handler (main.go 121-136) -/

/-- The part of an `http.Request` the handler reads: the path of the URL and
the parsed form (the query parameters, in order). -/
structure Request where
  Path : Str
  Form : List (Str × Str)
  deriving DecidableEq, Repr

/-- Go's `req.FormValue(key)`: the first value of `key`, the empty string when
the key is absent. -/
def FormValue (req : Request) (key : Str) : Str :=
  match req.Form.find? (fun p => p.1 = key) with
  | some p => p.2
  | none => []

/-- What the handler has written to the `http.ResponseWriter`. -/
structure Response where
  Status : Nat
  ContentType : Str
  Body : Str
  deriving DecidableEq, Repr

/-- Go's `http.Error(w, msg, code)`: the status, a plain-text content type and
the message on a line. -/
def httpError (msg : Str) (code : Nat) : Response :=
  { Status := code, ContentType := "text/plain; charset=utf-8".toList, Body := msg ++ ['\n'] }

/-- All the handler does with one request: the response, the value sent on
the channel `ch` (if any) and whether `log.Fatalf` ends the process. -/
structure Handled where
  response : Response
  sent : Option Str
  fatal : Bool
  deriving DecidableEq, Repr

/-- The handler function of lines 121-136. -/
def callbackHandler (req : Request) : Handled :=
  if req.Path = "/favicon.ico".toList then
    { response := httpError "Not Found".toList 404, sent := none, fatal := false }
  else
    let code := FormValue req "code".toList
    if code ≠ [] then
      { response := { Status := 200, ContentType := "text/plain".toList,
                      Body := "Authorized.".toList ++ ['\n'] },
        sent := some code, fatal := false }
    else
      { response := httpError "Internal Server Error".toList 500, sent := none, fatal := true }

/-! ## `prepareOAuthClient` (main.go 177-197) -/

/-- The fields of `oauth.Config` that the program sets. -/
structure Config where
  ClientId : Str
  ClientSecret : Str
  Scope : Str
  AuthURL : Str
  TokenURL : Str
  AccessType : Str
  ApprovalPrompt : Str
  RedirectURL : Str
  deriving DecidableEq, Repr

/-- An `oauth.Token`, as decoded from the cache file or returned by the
exchange. -/
structure Token where
  AccessToken : Str
  RefreshToken : Str
  deriving DecidableEq, Repr

/-- An `oauth.Transport`. -/
structure Transport where
  Token : Token
  Config : Config
  deriving DecidableEq, Repr

/-- The calls `prepareOAuthClient` makes, in order. -/
inductive AuthEvent where
  /-- the call `loadJSONFromFile(".../auth_cache.json", token)` -/
  | loadCache
  /-- the call `obtainToken(config)`, with the configuration it receives -/
  | obtainToken (config : Config)
  deriving DecidableEq, Repr

/-- A run of `prepareOAuthClient`: its calls and the transport behind the
client it returns; `none` when `obtainToken` ends the process. -/
structure AuthRun where
  events : List AuthEvent
  client : Option Transport
  deriving DecidableEq, Repr

/-- The function `prepareOAuthClient(config, useFresh)`.  `cache` is what loading the
cache file gives when it is tried (the decoded token or the error);
`obtainToken` is the interactive authorization, which returns a token and
the configuration it has updated, or ends the process. -/
def prepareOAuthClient (cache : Except Str Token)
    (obtainToken : Config → Option (Token × Config))
    (config : Config) (useFresh : Bool) : AuthRun :=
  let token0 : Token := { AccessToken := [], RefreshToken := [] }
  -- lines 180-185
  let (token1, useFresh1, events1) :=
    if useFresh = false then
      match cache with
      | .ok t => (t, useFresh, [AuthEvent.loadCache])
      | .error _ => (token0, true, [AuthEvent.loadCache])
    else (token0, useFresh, [])
  -- lines 187-190
  if useFresh1 then
    let config1 := { config with ApprovalPrompt := "force".toList }
    match obtainToken config1 with
    | none => { events := events1 ++ [AuthEvent.obtainToken config1], client := none }
    | some (token2, config2) =>
      { events := events1 ++ [AuthEvent.obtainToken config1],
        client := some { Token := token2, Config := config2 } }
  else
    { events := events1, client := some { Token := token1, Config := config } }

/-! ## Lemmas on `Split`, `Join`, `Contains` -/

theorem Split_ne_nil (s : Str) (sep : Char) : Split s sep ≠ [] := by
  induction s with
  | nil => simp [Split]
  | cons c cs ih =>
    unfold Split
    split
    · simp
    · split <;> simp

theorem Split_cons_sep (cs : Str) (sep : Char) :
    Split (sep :: cs) sep = [] :: Split cs sep := by
  simp [Split]

theorem Split_cons_ne (c : Char) (cs : Str) (sep : Char) (h : c ≠ sep) :
    ∃ p ps, Split cs sep = p :: ps ∧ Split (c :: cs) sep = (c :: p) :: ps := by
  cases hs : Split cs sep with
  | nil => exact absurd hs (Split_ne_nil cs sep)
  | cons p ps =>
    refine ⟨p, ps, rfl, ?_⟩
    simp [Split, h, hs]

/-- No piece of a split holds the separator. -/
theorem not_mem_of_mem_Split (s : Str) (sep : Char) :
    ∀ x ∈ Split s sep, sep ∉ x := by
  induction s with
  | nil => simp [Split]
  | cons c cs ih =>
    by_cases h : c = sep
    · subst h
      rw [Split_cons_sep]
      intro x hx
      rcases List.mem_cons.1 hx with rfl | hx
      · simp
      · exact ih x hx
    · obtain ⟨p, ps, h1, h2⟩ := Split_cons_ne c cs sep h
      rw [h2]
      rw [h1] at ih
      intro x hx
      rcases List.mem_cons.1 hx with rfl | hx
      · intro hm
        rcases List.mem_cons.1 hm with e | hm
        · exact h e.symm
        · exact ih p (List.mem_cons_self _ _) hm
      · exact ih x (List.mem_cons_of_mem _ hx)

/-- A string without the separator is a single piece. -/
theorem Split_of_not_mem (a : Str) (sep : Char) (h : sep ∉ a) : Split a sep = [a] := by
  induction a with
  | nil => simp [Split]
  | cons c cs ih =>
    have hc : c ≠ sep := fun e => h (by simp [e])
    have hcs : sep ∉ cs := fun e => h (List.mem_cons_of_mem _ e)
    simp [Split, hc, ih hcs]

/-- Splitting after a separator-free prefix. -/
theorem Split_append_sep (a rest : Str) (sep : Char) (h : sep ∉ a) :
    Split (a ++ sep :: rest) sep = a :: Split rest sep := by
  induction a with
  | nil => simp [Split]
  | cons c cs ih =>
    have hc : c ≠ sep := fun e => h (by simp [e])
    have hcs : sep ∉ cs := fun e => h (List.mem_cons_of_mem _ e)
    simp [Split, hc, ih hcs]

/-- Joining separator-free pieces and splitting again gives the pieces back. -/
theorem Split_Join (l : List Str) (sep : Char) (hl : l ≠ [])
    (h : ∀ x ∈ l, sep ∉ x) : Split (Join l [sep]) sep = l := by
  induction l with
  | nil => exact absurd rfl hl
  | cons a t ih =>
    cases t with
    | nil =>
      simp only [Join]
      exact Split_of_not_mem a sep (h a (List.mem_cons_self _ _))
    | cons b rest =>
      simp only [Join, List.append_assoc, List.singleton_append]
      rw [Split_append_sep _ _ _ (h a (List.mem_cons_self _ _))]
      rw [ih (by simp) (fun x hx => h x (List.mem_cons_of_mem _ hx))]

/-- Splitting and joining again gives the string back. -/
theorem Join_Split (s : Str) (sep : Char) : Join (Split s sep) [sep] = s := by
  induction s with
  | nil => simp [Split, Join]
  | cons c cs ih =>
    by_cases h : c = sep
    · subst h
      rw [Split_cons_sep]
      cases hs : Split cs c with
      | nil => exact absurd hs (Split_ne_nil cs c)
      | cons p ps =>
        rw [hs] at ih
        simp [Join, ih]
    · obtain ⟨p, ps, h1, h2⟩ := Split_cons_ne c cs sep h
      rw [h2]
      rw [h1] at ih
      cases ps with
      | nil =>
        simp only [Join] at ih ⊢
        rw [ih]
      | cons q qs =>
        simp only [Join] at ih ⊢
        rw [← ih]
        simp

/-- Searching for a one-character string is membership of the character. -/
theorem Contains_singleton (s : Str) (c : Char) : Contains s [c] = true ↔ c ∈ s := by
  induction s with
  | nil => simp [Contains, HasPrefix, List.isPrefixOf]
  | cons d ds ih =>
    simp only [Contains, List.tails, List.any_cons, Bool.or_eq_true, List.mem_cons] at ih ⊢
    rw [ih]
    constructor
    · rintro (h | h)
      · left
        simp [HasPrefix, List.isPrefixOf] at h
        exact h
      · exact Or.inr h
    · rintro (h | h)
      · left
        simp [HasPrefix, List.isPrefixOf, h]
      · exact Or.inr h

/-! ## `fixupWithGaPrefix` -/

theorem colon_mem_gaPrefix_append (name : Str) : ':' ∈ gaPrefix ++ name := by
  simp [gaPrefix]

theorem comma_not_mem_gaPrefix : ',' ∉ gaPrefix := by
  decide

/-- What the loop body does, in terms of membership of `':'`. -/
theorem fixupName_eq (name : Str) :
    fixupName name = if ':' ∈ name then name else gaPrefix ++ name := by
  unfold fixupName
  by_cases h : ':' ∈ name
  · have hc : Contains name [':'] = true := (Contains_singleton name ':').2 h
    simp [hc, h]
  · have hc : Contains name [':'] = false := by
      cases hb : Contains name [':'] with
      | false => rfl
      | true => exact absurd ((Contains_singleton name ':').1 hb) h
    simp [hc, h]

theorem colon_mem_fixupName (name : Str) : ':' ∈ fixupName name := by
  rw [fixupName_eq]
  split
  · assumption
  · exact colon_mem_gaPrefix_append name

theorem fixupName_idem (name : Str) : fixupName (fixupName name) = fixupName name := by
  rw [fixupName_eq (fixupName name), if_pos (colon_mem_fixupName name)]

theorem comma_not_mem_fixupName (name : Str) (h : ',' ∉ name) : ',' ∉ fixupName name := by
  rw [fixupName_eq]
  split
  · exact h
  · intro hm
    rcases List.mem_append.1 hm with hm | hm
    · exact comma_not_mem_gaPrefix hm
    · exact h hm

/-- The comma-split of the result is the comma-split of the input, mapped. -/
theorem Split_fixupWithGaPrefix (s : Str) :
    Split (fixupWithGaPrefix s) ',' = (Split s ',').map fixupName := by
  unfold fixupWithGaPrefix
  apply Split_Join
  · simpa using Split_ne_nil s ','
  · intro x hx
    obtain ⟨y, hy, rfl⟩ := List.mem_map.1 hx
    exact comma_not_mem_fixupName y (not_mem_of_mem_Split s ',' y hy)

/-- C1: `fixupWithGaPrefix` is idempotent: for every input string `s` (the
empty string and lists with empty elements too), applying it to its own
result gives that result again. -/
theorem fixupWithGaPrefix_idempotent (s : Str) :
    fixupWithGaPrefix (fixupWithGaPrefix s) = fixupWithGaPrefix s := by
  have h := Split_fixupWithGaPrefix s
  unfold fixupWithGaPrefix at h ⊢
  rw [h, List.map_map]
  congr 1
  apply List.map_congr_left
  intro a _
  exact fixupName_idem a

/-- C2: `fixupWithGaPrefix` acts element by element on the comma-split of its
input: the result split on `','` has as many elements as the input split on
`','`, in the same order; the `i`-th result element is `"ga:"` followed by
the `i`-th input element when that element holds no `':'` (the empty name
too) and is the `i`-th input element itself when it holds one.  So a list
whose every element holds a `':'` is returned unchanged, and a single
colon-free name gets the prefix once. -/
theorem fixupWithGaPrefix_elementwise (s : Str) :
    (Split (fixupWithGaPrefix s) ',').length = (Split s ',').length
    ∧ (∀ i : Nat, (Split (fixupWithGaPrefix s) ',')[i]? =
        ((Split s ',')[i]?).map (fun name => if ':' ∈ name then name else gaPrefix ++ name))
    ∧ ((∀ name ∈ Split s ',', ':' ∈ name) → fixupWithGaPrefix s = s)
    ∧ (',' ∉ s → ':' ∉ s → fixupWithGaPrefix s = gaPrefix ++ s) := by
  have hfun : fixupName = fun name => if ':' ∈ name then name else gaPrefix ++ name :=
    funext fixupName_eq
  refine ⟨?_, ?_, ?_, ?_⟩
  · rw [Split_fixupWithGaPrefix, List.length_map]
  · intro i
    rw [Split_fixupWithGaPrefix, List.getElem?_map, hfun]
  · intro h
    unfold fixupWithGaPrefix
    have : (Split s ',').map fixupName = Split s ',' := by
      conv_rhs => rw [← List.map_id (Split s ',')]
      apply List.map_congr_left
      intro a ha
      rw [fixupName_eq, if_pos (h a ha)]
      rfl
    rw [this, Join_Split]
  · intro h1 h2
    unfold fixupWithGaPrefix
    rw [Split_of_not_mem s ',' h1]
    simp [Join, fixupName_eq, h2]

/-- An instance of C2: a list with an empty element, a bare name and a
qualified name. -/
theorem fixupWithGaPrefix_elementwise_witness :
    fixupWithGaPrefix "a,,mcf:b".toList = "ga:a,ga:,mcf:b".toList
    ∧ fixupWithGaPrefix "mcf:b,ga:c".toList = "mcf:b,ga:c".toList
    ∧ fixupWithGaPrefix "sessions".toList = gaPrefix ++ "sessions".toList := by
  refine ⟨by decide, ?_, ?_⟩
  · exact (fixupWithGaPrefix_elementwise "mcf:b,ga:c".toList).2.2.1 (by decide)
  · exact (fixupWithGaPrefix_elementwise "sessions".toList).2.2.2 (by decide) (by decide)

/-! ## The entry of a row -/

theorem foldl_append_singleton {α β : Type} (f : α → β) (l : List α) (init : List β) :
    l.foldl (fun acc x => acc ++ [f x]) init = init ++ l.map f := by
  induction l generalizing init with
  | nil => simp
  | cons a t ih => simp [ih]

/-- The display headers are the column names, each with a leading `"ga:"`
taken off, in the order of the columns. -/
theorem displayHeaders_eq_map (cols : List ColumnHeader) :
    displayHeaders cols = cols.map (fun header => TrimPrefix header.Name gaPrefix) := by
  unfold displayHeaders
  rw [foldl_append_singleton (fun header : ColumnHeader => TrimPrefix header.Name gaPrefix)]
  simp

theorem displayHeaders_length (cols : List ColumnHeader) :
    (displayHeaders cols).length = cols.length := by
  rw [displayHeaders_eq_map, List.length_map]

theorem TrimPrefix_gaPrefix_append (rest : Str) : TrimPrefix (gaPrefix ++ rest) gaPrefix = rest := by
  simp [TrimPrefix, HasPrefix, gaPrefix, List.isPrefixOf]

theorem mapIndex_mapAssign (m : Entry) (k v k' : Str) :
    mapIndex (mapAssign m k v) k' = if k' = k then some v else mapIndex m k' := by
  unfold mapIndex mapAssign
  by_cases h : k' = k
  · subst h
    simp
  · have h' : ¬ k = k' := fun e => h e.symm
    have hfind : List.find? (fun p => decide (p.1 = k'))
        (List.filter (fun p => decide (p.1 ≠ k)) m)
        = List.find? (fun p => decide (p.1 = k')) m := by
      induction m with
      | nil => rfl
      | cons a t ih =>
        rw [List.filter_cons, List.find?_cons]
        by_cases ha : a.1 = k
        · have hak : ¬ a.1 = k' := fun e => h (e.symm.trans ha)
          have h1 : decide (a.1 ≠ k) = false := by simp [ha]
          have h2 : decide (a.1 = k') = false := by simp [hak]
          rw [h1, h2]
          exact ih
        · have h1 : decide (a.1 ≠ k) = true := by simp [ha]
          rw [h1, if_pos rfl, List.find?_cons, ih]
    simp only [List.find?_cons, h', decide_False, if_neg h]
    rw [hfind]

/-- The loop over the headers ends without panic when the row reaches far
enough. -/
theorem buildEntryFrom_ok (row : List Str) (hs : List Str) :
    ∀ (i : Nat) (m : Entry), i + hs.length ≤ row.length →
      ∃ e, buildEntryFrom row i hs m = .ok e := by
  induction hs with
  | nil => intro i m _; exact ⟨m, rfl⟩
  | cons h t ih =>
    intro i m hlen
    simp only [List.length_cons] at hlen
    have hi : i < row.length := by omega
    obtain ⟨e, he⟩ := ih (i + 1) (mapAssign m h row[i]) (by omega)
    refine ⟨e, ?_⟩
    simp only [buildEntryFrom, List.getElem?_eq_getElem hi]
    exact he

/-- The loop over the headers panics when the row is too short. -/
theorem buildEntryFrom_short (row : List Str) (hs : List Str) :
    ∀ (i : Nat) (m : Entry), i ≤ row.length → row.length < i + hs.length →
      buildEntryFrom row i hs m = .error .indexOutOfRange := by
  induction hs with
  | nil => intro i m h1 h2; simp at h2; omega
  | cons h t ih =>
    intro i m hle hlen
    simp only [List.length_cons] at hlen
    by_cases hi : i < row.length
    · simp only [buildEntryFrom, List.getElem?_eq_getElem hi]
      exact ih (i + 1) _ (by omega) (by omega)
    · have : row[i]? = none := List.getElem?_eq_none (by omega)
      simp only [buildEntryFrom, this]

/-- A key that is none of the remaining headers keeps its value. -/
theorem buildEntryFrom_of_not_mem (row : List Str) (hs : List Str) (k : Str) :
    ∀ (i : Nat) (m e : Entry), buildEntryFrom row i hs m = .ok e → k ∉ hs →
      mapIndex e k = mapIndex m k := by
  induction hs with
  | nil =>
    intro i m e he _
    simp only [buildEntryFrom, Except.ok.injEq] at he
    rw [he]
  | cons h t ih =>
    intro i m e he hk
    simp only [buildEntryFrom] at he
    cases hr : row[i]? with
    | none => rw [hr] at he; simp at he
    | some v =>
      rw [hr] at he
      simp only at he
      rw [ih (i + 1) _ e he (fun hm => hk (List.mem_cons_of_mem _ hm)), mapIndex_mapAssign]
      have : k ≠ h := fun e' => hk (by simp [e'])
      simp [this]

/-- The header at position `j`, when no later header equals it, ends up
mapped to the value of the row at that position. -/
theorem buildEntryFrom_getElem (row : List Str) (hs : List Str) :
    ∀ (i : Nat) (m e : Entry), buildEntryFrom row i hs m = .ok e →
      ∀ (j : Nat) (k : Str), hs[j]? = some k → (∀ j', j < j' → hs[j']? ≠ some k) →
        mapIndex e k = row[i + j]? := by
  induction hs with
  | nil => intro i m e _ j k hj; simp at hj
  | cons h t ih =>
    intro i m e he j k hj hlast
    simp only [buildEntryFrom] at he
    cases hr : row[i]? with
    | none => rw [hr] at he; simp at he
    | some v =>
      rw [hr] at he
      simp only at he
      cases j with
      | zero =>
        simp only [List.getElem?_cons_zero, Option.some.injEq] at hj
        subst hj
        have hnot : h ∉ t := by
          intro hm
          obtain ⟨n, hn⟩ := List.getElem?_of_mem hm
          exact hlast (n + 1) (by omega) (by simpa using hn)
        rw [buildEntryFrom_of_not_mem row t h (i + 1) _ e he hnot, mapIndex_mapAssign]
        simp [hr]
      | succ j =>
        simp only [List.getElem?_cons_succ] at hj
        have := ih (i + 1) _ e he j k hj (fun j' hj' => by
          have := hlast (j' + 1) (by omega)
          simpa using this)
        rw [this]
        congr 1
        omega

/-- Every value of the entry was in the map before the loop or is a value of
the row. -/
theorem buildEntryFrom_value (row : List Str) (hs : List Str) :
    ∀ (i : Nat) (m e : Entry), buildEntryFrom row i hs m = .ok e →
      ∀ (k v : Str), mapIndex e k = some v → mapIndex m k = some v ∨ v ∈ row := by
  induction hs with
  | nil =>
    intro i m e he k v hv
    simp only [buildEntryFrom, Except.ok.injEq] at he
    rw [← he] at hv
    exact Or.inl hv
  | cons h t ih =>
    intro i m e he k v hv
    simp only [buildEntryFrom] at he
    cases hr : row[i]? with
    | none => rw [hr] at he; simp at he
    | some x =>
      rw [hr] at he
      simp only at he
      rcases ih (i + 1) _ e he k v hv with h1 | h1
      · rw [mapIndex_mapAssign] at h1
        by_cases hk : k = h
        · rw [if_pos hk] at h1
          right
          have hx : x ∈ row := List.getElem?_mem hr
          simp only [Option.some.injEq] at h1
          rw [← h1]
          exact hx
        · rw [if_neg hk] at h1
          exact Or.inl h1
      · exact Or.inr h1

theorem mapIndex_nil (k : Str) : mapIndex [] k = none := rfl

/-- The values of the entry of a row are values of the row. -/
theorem buildEntry_value (headers row : List Str) (e : Entry)
    (he : buildEntry headers row = .ok e) (k v : Str) (hv : mapIndex e k = some v) :
    v ∈ row := by
  rcases buildEntryFrom_value row headers 0 [] e he k v hv with h | h
  · rw [mapIndex_nil] at h
    cases h
  · exact h

/-- A key that is no header is absent from the entry. -/
theorem buildEntry_of_not_mem (headers row : List Str) (e : Entry)
    (he : buildEntry headers row = .ok e) (k : Str) (hk : k ∉ headers) :
    mapIndex e k = none := by
  rw [buildEntryFrom_of_not_mem row headers k 0 [] e he hk, mapIndex_nil]

theorem buildEntry_ok (headers row : List Str) (h : headers.length ≤ row.length) :
    ∃ e, buildEntry headers row = .ok e :=
  buildEntryFrom_ok row headers 0 [] (by omega)

theorem buildEntry_short (headers row : List Str) (h : row.length < headers.length) :
    buildEntry headers row = .error .indexOutOfRange :=
  buildEntryFrom_short row headers 0 [] (by omega) (by omega)

/-- C8 (as amended): for every report in which each row is as long as the
list of column headers, the display headers are the column names with a
leading `"ga:"` taken off, as many and in the same order; the entry of each
row is built without panic, and it maps the display header of column `i` to
`row[i]` whenever no later column has the same display header. -/
theorem buildEntry_maps_header_to_value (gaData : GaData)
    (hinv : ∀ row ∈ gaData.Rows, row.length = gaData.ColumnHeaders.length) :
    displayHeaders gaData.ColumnHeaders
        = gaData.ColumnHeaders.map (fun header => TrimPrefix header.Name gaPrefix)
    ∧ (displayHeaders gaData.ColumnHeaders).length = gaData.ColumnHeaders.length
    ∧ ∀ row ∈ gaData.Rows, ∃ entry,
        buildEntry (displayHeaders gaData.ColumnHeaders) row = .ok entry
        ∧ ∀ (i : Nat) (header : Str),
            (displayHeaders gaData.ColumnHeaders)[i]? = some header →
            (∀ j, i < j → (displayHeaders gaData.ColumnHeaders)[j]? ≠ some header) →
            ∃ v, row[i]? = some v ∧ mapIndex entry header = some v := by
  refine ⟨displayHeaders_eq_map _, displayHeaders_length _, ?_⟩
  intro row hrow
  have hlen : (displayHeaders gaData.ColumnHeaders).length ≤ row.length := by
    rw [displayHeaders_length, hinv row hrow]
  obtain ⟨entry, he⟩ := buildEntry_ok _ row hlen
  refine ⟨entry, he, ?_⟩
  intro i header hi hlast
  have hget := buildEntryFrom_getElem row _ 0 [] entry he i header hi hlast
  rw [Nat.zero_add] at hget
  have hi' : i < row.length := by
    obtain ⟨h1, _⟩ := List.getElem?_eq_some.1 hi
    omega
  exact ⟨row[i], List.getElem?_eq_getElem hi', by rw [hget, List.getElem?_eq_getElem hi']⟩

/-- An instance of C8: the columns `ga:date`, `ga:sessions`. -/
theorem buildEntry_maps_header_to_value_witness :
    ∃ entry, buildEntry (displayHeaders [⟨"ga:date".toList⟩, ⟨"ga:sessions".toList⟩])
        ["2024-01-01".toList, "10".toList] = .ok entry
      ∧ mapIndex entry "sessions".toList = some "10".toList := by
  obtain ⟨_, _, h⟩ := buildEntry_maps_header_to_value
    ⟨[⟨"ga:date".toList⟩, ⟨"ga:sessions".toList⟩], [["2024-01-01".toList, "10".toList]]⟩
    (by decide)
  obtain ⟨entry, he, hmap⟩ := h ["2024-01-01".toList, "10".toList] (by decide)
  refine ⟨entry, he, ?_⟩
  obtain ⟨v, hv, hm⟩ := hmap 1 "sessions".toList (by decide) (by
    intro j hj
    have hd : displayHeaders (GaData.ColumnHeaders
        ⟨[⟨"ga:date".toList⟩, ⟨"ga:sessions".toList⟩], [["2024-01-01".toList, "10".toList]]⟩)
        = ["date".toList, "sessions".toList] := by decide
    rw [hd, List.getElem?_eq_none (by simp only [List.length_cons, List.length_nil]; omega)]
    simp)
  have hv' : v = "10".toList := by
    simp only [List.getElem?_cons_succ, List.getElem?_cons_zero, Option.some.injEq] at hv
    exact hv.symm
  rw [hm, hv']

/-- C8 as stated fails: with the columns `ga:a` and `a` the display header
of column 0 is mapped to the value of column 1. -/
theorem buildEntry_duplicate_header :
    ¬ (∀ gaData : GaData,
        (∀ row ∈ gaData.Rows, row.length = gaData.ColumnHeaders.length) →
        ∀ row ∈ gaData.Rows, ∃ entry,
          buildEntry (displayHeaders gaData.ColumnHeaders) row = .ok entry
          ∧ ∀ (i : Nat) (header : Str),
              (displayHeaders gaData.ColumnHeaders)[i]? = some header →
              mapIndex entry header = row[i]?) := by
  intro h
  obtain ⟨entry, he, hmap⟩ :=
    h ⟨[⟨"ga:a".toList⟩, ⟨"a".toList⟩], [["1".toList, "2".toList]]⟩ (by decide)
      ["1".toList, "2".toList] (by decide)
  have h0 := hmap 0 "a".toList (by decide)
  have he' : buildEntry (displayHeaders [⟨"ga:a".toList⟩, ⟨"a".toList⟩])
      ["1".toList, "2".toList] = .ok [("a".toList, "2".toList)] := by decide
  rw [he'] at he
  simp only [Except.ok.injEq] at he
  rw [← he] at h0
  exact absurd h0 (by decide)

/-! ## The renderer -/

/-- Whether the rows loop ends is decided by the lengths of the rows and by
the format alone. -/
theorem renderRowsWith_ne_indexOutOfRange (engine : TemplateEngine) (format : Str)
    (headers : List Str)
    (rows : List (List Str)) (h : ∀ row ∈ rows, headers.length ≤ row.length) :
    ∀ w, renderRowsWith engine format headers rows w ≠ .error .indexOutOfRange := by
  induction rows with
  | nil => intro w; simp [renderRowsWith]
  | cons row rest ih =>
    intro w
    obtain ⟨e, he⟩ := buildEntry_ok headers row (h row (List.mem_cons_self _ _))
    have ih' := ih (fun r hr => h r (List.mem_cons_of_mem _ hr))
    simp only [renderRowsWith, he]
    split
    · exact ih' _
    · split
      · simp
      · exact ih' _

/-- Plain mode: the rows loop writes each row, tab-joined, on a line. -/
theorem renderRowsWith_plain (engine : TemplateEngine) (headers : List Str)
    (rows : List (List Str))
    (h : ∀ row ∈ rows, headers.length ≤ row.length) :
    ∀ w, renderRowsWith engine [] headers rows w
      = .ok (w ++ concatAll (rows.map (fun row => Join row ['\t'] ++ ['\n']))) := by
  induction rows with
  | nil => intro w; simp [renderRowsWith, concatAll]
  | cons row rest ih =>
    intro w
    obtain ⟨e, he⟩ := buildEntry_ok headers row (h row (List.mem_cons_self _ _))
    simp only [renderRowsWith, he, if_true, List.map_cons, concatAll]
    rw [ih (fun r hr => h r (List.mem_cons_of_mem _ hr))]
    simp [Fprintln]

/-- Template mode: the rows loop writes, for each row, what the template
writes for the entry of the row. -/
theorem renderRowsWith_template (engine : TemplateEngine) (exec : Entry → Str)
    (format : Str) (headers : List Str) (rows : List (List Str)) (hf : format ≠ [])
    (hp : engine (format ++ ['\n']) = some exec)
    (h : ∀ row ∈ rows, headers.length ≤ row.length) :
    ∃ entries, List.Forall₂ (fun row entry => buildEntry headers row = .ok entry) rows entries
      ∧ ∀ w, renderRowsWith engine format headers rows w
          = .ok (w ++ concatAll (entries.map exec)) := by
  induction rows with
  | nil => exact ⟨[], List.Forall₂.nil, fun w => by simp [renderRowsWith, concatAll]⟩
  | cons row rest ih =>
    obtain ⟨e, he⟩ := buildEntry_ok headers row (h row (List.mem_cons_self _ _))
    obtain ⟨es, hes, hout⟩ := ih (fun r hr => h r (List.mem_cons_of_mem _ hr))
    refine ⟨e :: es, List.Forall₂.cons he hes, ?_⟩
    intro w
    simp only [renderRowsWith, he, if_neg hf, hp, List.map_cons, concatAll]
    rw [hout]
    simp

/-- A newline-free string followed by a newline, then more: the lines. -/
theorem Split_concatAll_lines (ls : List Str) (h : ∀ l ∈ ls, '\n' ∉ l) :
    Split (concatAll (ls.map (fun l => l ++ ['\n']))) '\n' = ls ++ [[]] := by
  induction ls with
  | nil => simp [concatAll, Split]
  | cons l rest ih =>
    simp only [List.map_cons, concatAll, List.append_assoc, List.singleton_append,
      List.cons_append, List.nil_append]
    rw [Split_append_sep _ _ _ (h l (List.mem_cons_self _ _)),
      ih (fun x hx => h x (List.mem_cons_of_mem _ hx))]

/-- A character of a joined string is in one of the pieces or in the
separator. -/
theorem mem_Join (l : List Str) (sep : Str) (c : Char) (hc : c ∈ Join l sep) :
    c ∈ sep ∨ ∃ x ∈ l, c ∈ x := by
  induction l with
  | nil => simp [Join] at hc
  | cons a t ih =>
    cases t with
    | nil =>
      simp only [Join] at hc
      exact Or.inr ⟨a, List.mem_cons_self _ _, hc⟩
    | cons b rest =>
      simp only [Join, List.mem_append] at hc
      rcases hc with (hc | hc) | hc
      · exact Or.inr ⟨a, List.mem_cons_self _ _, hc⟩
      · exact Or.inl hc
      · rcases ih hc with h1 | ⟨x, hx, hcx⟩
        · exact Or.inl h1
        · exact Or.inr ⟨x, List.mem_cons_of_mem _ hx, hcx⟩

/-- Plain mode: a row shorter than the header list makes the rows loop
panic. -/
theorem renderRowsWith_plain_short (engine : TemplateEngine) (headers : List Str)
    (rows : List (List Str))
    (h : ∃ row ∈ rows, row.length < headers.length) :
    ∀ w, renderRowsWith engine [] headers rows w = .error .indexOutOfRange := by
  induction rows with
  | nil => obtain ⟨row, hrow, _⟩ := h; simp at hrow
  | cons row rest ih =>
    intro w
    by_cases hlen : row.length < headers.length
    · simp only [renderRowsWith, buildEntry_short headers row hlen]
    · obtain ⟨e, he⟩ := buildEntry_ok headers row (by omega)
      simp only [renderRowsWith, he, if_true]
      apply ih
      obtain ⟨r, hr, hr'⟩ := h
      rcases List.mem_cons.1 hr with rfl | hr
      · exact absurd hr' hlen
      · exact ⟨r, hr, hr'⟩

/-- C10: when every row has at least as many values as there are column
headers, building the entry of a row never reads the row out of range, so
rendering does not end in an index panic, with any format, and plain mode
runs to the end; a row shorter than the header list makes the run panic on
the index, in plain mode too, where the entry is not used. -/
theorem render_row_index_in_range :
    (∀ (format : Str) (gaData : GaData),
      (∀ row ∈ gaData.Rows, gaData.ColumnHeaders.length ≤ row.length) →
        (∀ row ∈ gaData.Rows, ∃ entry,
          buildEntry (displayHeaders gaData.ColumnHeaders) row = .ok entry)
        ∧ render format gaData ≠ .error .indexOutOfRange
        ∧ ∃ out, render [] gaData = .ok out)
    ∧ (∀ gaData : GaData,
        (∃ row ∈ gaData.Rows, row.length < gaData.ColumnHeaders.length) →
        render [] gaData = .error .indexOutOfRange)
    ∧ render [] ⟨[⟨"ga:date".toList⟩, ⟨"ga:sessions".toList⟩], [["2024-01-01".toList]]⟩
        = .error .indexOutOfRange
    ∧ render "{{.date}}".toList
        ⟨[⟨"ga:date".toList⟩, ⟨"ga:sessions".toList⟩], [["2024-01-01".toList]]⟩
        = .error .indexOutOfRange := by
  refine ⟨?_, ?_, by decide, by decide⟩
  · intro format gaData h
    have h' : ∀ row ∈ gaData.Rows,
        (displayHeaders gaData.ColumnHeaders).length ≤ row.length := by
      intro row hrow
      rw [displayHeaders_length]
      exact h row hrow
    refine ⟨fun row hrow => buildEntry_ok _ row (h' row hrow), ?_, ?_⟩
    · exact renderRowsWith_ne_indexOutOfRange _ format _ _ h' _
    · exact ⟨_, renderRowsWith_plain _ _ _ h' _⟩
  · intro gaData h
    apply renderRowsWith_plain_short
    obtain ⟨row, hrow, hlen⟩ := h
    exact ⟨row, hrow, by rw [displayHeaders_length]; exact hlen⟩

/-- An instance of C10: a report with rows of the right length, rendered
with a template. -/
theorem render_row_index_in_range_witness :
    render "{{.date}}".toList
        ⟨[⟨"ga:date".toList⟩, ⟨"ga:sessions".toList⟩], [["2024-01-01".toList, "10".toList]]⟩
      ≠ .error .indexOutOfRange :=
  (render_row_index_in_range.1 "{{.date}}".toList
    ⟨[⟨"ga:date".toList⟩, ⟨"ga:sessions".toList⟩], [["2024-01-01".toList, "10".toList]]⟩
    (by decide)).2.1

/-- C3 (as amended): for every report with at least one column in which
each row is as long as the list of column headers and no display header and
no value holds a newline and no value holds a tab, plain mode writes
exactly `rows.length + 1` lines: the display headers joined by tab, then
one line per row, in order, the values of the row joined by tab; each row
line splits on the tab into the values of the row, which are as many as the
column headers. -/
theorem render_plain_lines (gaData : GaData)
    (hinv : ∀ row ∈ gaData.Rows, row.length = gaData.ColumnHeaders.length)
    (hcols : gaData.ColumnHeaders ≠ [])
    (hhead : ∀ header ∈ displayHeaders gaData.ColumnHeaders, '\n' ∉ header)
    (hval : ∀ row ∈ gaData.Rows, ∀ v ∈ row, '\n' ∉ v ∧ '\t' ∉ v) :
    ∃ out, render [] gaData = .ok out
      ∧ Split out '\n'
          = (Join (displayHeaders gaData.ColumnHeaders) ['\t']
              :: gaData.Rows.map (fun row => Join row ['\t'])) ++ [[]]
      ∧ (Split out '\n').length = gaData.Rows.length + 1 + 1
      ∧ ∀ row ∈ gaData.Rows,
          Split (Join row ['\t']) '\t' = row
          ∧ (Split (Join row ['\t']) '\t').length = gaData.ColumnHeaders.length := by
  have h' : ∀ row ∈ gaData.Rows,
      (displayHeaders gaData.ColumnHeaders).length ≤ row.length := by
    intro row hrow
    rw [displayHeaders_length, hinv row hrow]
  have hout := renderRowsWith_plain textTemplate (displayHeaders gaData.ColumnHeaders)
    gaData.Rows h'
    (Fprintln [] (Join (displayHeaders gaData.ColumnHeaders) ['\t']))
  have hlines : Fprintln [] (Join (displayHeaders gaData.ColumnHeaders) ['\t'])
      ++ concatAll (gaData.Rows.map (fun row => Join row ['\t'] ++ ['\n']))
      = concatAll ((Join (displayHeaders gaData.ColumnHeaders) ['\t']
          :: gaData.Rows.map (fun row => Join row ['\t'])).map (fun l => l ++ ['\n'])) := by
    simp [Fprintln, concatAll, List.map_map, Function.comp_def]
  have hsplit : Split (Fprintln [] (Join (displayHeaders gaData.ColumnHeaders) ['\t'])
      ++ concatAll (gaData.Rows.map (fun row => Join row ['\t'] ++ ['\n']))) '\n'
      = (Join (displayHeaders gaData.ColumnHeaders) ['\t']
          :: gaData.Rows.map (fun row => Join row ['\t'])) ++ [[]] := by
    rw [hlines]
    apply Split_concatAll_lines
    intro l hl hmem
    rcases List.mem_cons.1 hl with rfl | hl
    · rcases mem_Join _ _ _ hmem with h1 | ⟨x, hx, hcx⟩
      · simp at h1
      · exact hhead x hx hcx
    · obtain ⟨row, hrow, rfl⟩ := List.mem_map.1 hl
      rcases mem_Join _ _ _ hmem with h1 | ⟨x, hx, hcx⟩
      · simp at h1
      · exact (hval row hrow x hx).1 hcx
  refine ⟨_, hout, hsplit, ?_, ?_⟩
  · rw [hsplit]
    simp
  · intro row hrow
    have hne : row ≠ [] := by
      intro e
      have := hinv row hrow
      rw [e] at this
      exact hcols (List.length_eq_zero.1 this.symm)
    have hs : Split (Join row ['\t']) '\t' = row :=
      Split_Join row '\t' hne (fun x hx => (hval row hrow x hx).2)
    exact ⟨hs, by rw [hs, hinv row hrow]⟩

/-- The scenario of C3: headers `date`, `sessions` and two rows give the
three lines `date<TAB>sessions`, `2024-01-01<TAB>10`, `2024-01-02<TAB>20`. -/
theorem render_plain_lines_witness :
    ∃ out, render [] ⟨[⟨"date".toList⟩, ⟨"sessions".toList⟩],
        [["2024-01-01".toList, "10".toList], ["2024-01-02".toList, "20".toList]]⟩ = .ok out
      ∧ Split out '\n'
          = ["date\tsessions".toList, "2024-01-01\t10".toList, "2024-01-02\t20".toList, []] := by
  obtain ⟨out, h1, h2, _⟩ := render_plain_lines
    ⟨[⟨"date".toList⟩, ⟨"sessions".toList⟩],
      [["2024-01-01".toList, "10".toList], ["2024-01-02".toList, "20".toList]]⟩
    (by decide) (by decide) (by decide) (by decide)
  refine ⟨out, h1, ?_⟩
  rw [h2]
  decide

/-- C3 as stated fails: a value that holds a tab gives a row line with more
fields than there are column headers, a value that holds a newline gives
more lines than `rows.length + 1`, and without columns the empty row line
still splits into one (empty) field. -/
theorem render_plain_tab_or_newline_in_value :
    (¬ ∀ gaData : GaData,
      (∀ row ∈ gaData.Rows, row.length = gaData.ColumnHeaders.length) →
      ∀ row ∈ gaData.Rows,
        (Split (Join row ['\t']) '\t').length = gaData.ColumnHeaders.length)
    ∧ (¬ ∀ gaData : GaData,
      (∀ row ∈ gaData.Rows, row.length = gaData.ColumnHeaders.length) →
      ∃ out, render [] gaData = .ok out
        ∧ (Split out '\n').length = gaData.Rows.length + 1 + 1)
    ∧ (¬ ∀ gaData : GaData,
      (∀ row ∈ gaData.Rows, row.length = gaData.ColumnHeaders.length) →
      (∀ row ∈ gaData.Rows, ∀ v ∈ row, '\n' ∉ v ∧ '\t' ∉ v) →
      ∀ row ∈ gaData.Rows,
        (Split (Join row ['\t']) '\t').length = gaData.ColumnHeaders.length) := by
  refine ⟨?_, ?_, ?_⟩
  · intro h
    have := h ⟨[⟨"ga:pageTitle".toList⟩], [["a\tb".toList]]⟩ (by decide)
      ["a\tb".toList] (by decide)
    exact absurd this (by decide)
  · intro h
    obtain ⟨out, h1, h2⟩ := h ⟨[⟨"ga:pageTitle".toList⟩], [["a\nb".toList]]⟩ (by decide)
    have h3 : render [] ⟨[⟨"ga:pageTitle".toList⟩], [["a\nb".toList]]⟩
        = .ok "pageTitle\na\nb\n".toList := by decide
    rw [h3] at h1
    simp only [Except.ok.injEq] at h1
    rw [← h1] at h2
    exact absurd h2 (by decide)
  · intro h
    have := h ⟨[], [[]]⟩ (by decide) (by decide) [] (by decide)
    exact absurd this (by decide)

/-! ## The template mechanism -/

theorem Execute_append (a b : Template) (e : Entry) :
    Execute (a ++ b) e = Execute a e ++ Execute b e := by
  induction a with
  | nil => simp [Execute]
  | cons n t ih => simp [Execute, ih]

theorem Execute_flushText (nodes : List Node) (acc : Str) (e : Entry) :
    Execute (flushText nodes acc) e = Execute nodes e ++ acc := by
  unfold flushText
  split
  · rename_i h
    simp [h]
  · rw [Execute_append]
    simp [Execute, execNode]

theorem nodeTexts_append (a b : List Node) : nodeTexts (a ++ b) = nodeTexts a ++ nodeTexts b := by
  induction a with
  | nil => simp [nodeTexts]
  | cons n t ih => cases n <;> simp [nodeTexts, ih]

theorem nodeTexts_flushText (nodes : List Node) (acc : Str) :
    nodeTexts (flushText nodes acc) = nodeTexts nodes ++ acc := by
  unfold flushText
  split
  · rename_i h
    simp [h]
  · rw [nodeTexts_append]
    simp [nodeTexts]

/-- The format with a newline appended, as `main` parses it, is a template
when the format is one, and expands to the expansion of the format followed
by the newline. -/
theorem Parse_append_newline (format : Str) (tmpl : Template)
    (hp : Parse format = some tmpl) :
    ∃ t, Parse (format ++ ['\n']) = some t ∧ ∀ e, Execute t e = Execute tmpl e ++ ['\n'] := by
  unfold Parse at hp ⊢
  rw [List.foldl_append]
  simp only [List.foldl_cons, List.foldl_nil]
  generalize List.foldl lexStep (LexState.text [] []) format = st at hp
  cases st with
  | text nodes acc =>
    simp only [lexEnd, Option.some.injEq] at hp
    subst hp
    refine ⟨flushText nodes (acc ++ ['\n']), by simp [lexStep, lexEnd], ?_⟩
    intro e
    rw [Execute_flushText, Execute_flushText, List.append_assoc]
  | leftBrace nodes acc =>
    simp only [lexEnd, Option.some.injEq] at hp
    subst hp
    refine ⟨flushText nodes (acc ++ ['{', '\n']), by simp [lexStep, lexEnd], ?_⟩
    intro e
    rw [Execute_flushText, Execute_flushText]
    simp
  | action nodes => simp [lexEnd] at hp
  | dot nodes => simp [lexEnd] at hp
  | field nodes name => simp [lexEnd] at hp
  | afterField nodes name => simp [lexEnd] at hp
  | rightBrace nodes name => simp [lexEnd] at hp
  | failed => simp [lexEnd] at hp

/-- One step of the scanner adds to the literal text at most the character
read and a pending `{`. -/
theorem stateText_lexStep (st : LexState) (c x : Char) (hx : x ∈ stateText (lexStep st c)) :
    x ∈ stateText st ∨ x = c ∨ x = '{' := by
  cases st with
  | text nodes acc =>
    simp only [lexStep] at hx
    split at hx
    · exact Or.inl hx
    · simp only [stateText, List.mem_append, List.mem_singleton] at hx ⊢
      rcases hx with h | h | h
      · exact Or.inl (Or.inl h)
      · exact Or.inl (Or.inr h)
      · exact Or.inr (Or.inl h)
  | leftBrace nodes acc =>
    simp only [lexStep] at hx
    split at hx
    · simp only [stateText, nodeTexts_flushText] at hx ⊢
      exact Or.inl hx
    · simp only [stateText, List.mem_append, List.mem_cons, List.mem_singleton,
        List.not_mem_nil, or_false] at hx ⊢
      rcases hx with h | h | h | h
      · exact Or.inl (Or.inl h)
      · exact Or.inl (Or.inr h)
      · exact Or.inr (Or.inr h)
      · exact Or.inr (Or.inl h)
  | action nodes =>
    simp only [lexStep] at hx
    split at hx
    · exact Or.inl hx
    · split at hx
      · exact Or.inl hx
      · simp [stateText] at hx
  | dot nodes =>
    simp only [lexStep] at hx
    split at hx
    · exact Or.inl hx
    · simp [stateText] at hx
  | field nodes name =>
    simp only [lexStep] at hx
    split at hx
    · exact Or.inl hx
    · split at hx
      · exact Or.inl hx
      · split at hx
        · exact Or.inl hx
        · simp [stateText] at hx
  | afterField nodes name =>
    simp only [lexStep] at hx
    split at hx
    · exact Or.inl hx
    · split at hx
      · exact Or.inl hx
      · simp [stateText] at hx
  | rightBrace nodes name =>
    simp only [lexStep] at hx
    split at hx
    · simp only [stateText, nodeTexts_append, nodeTexts, List.append_nil] at hx ⊢
      exact Or.inl hx
    · simp [stateText] at hx
  | failed => simp [lexStep, stateText] at hx

theorem stateText_foldl (format : Str) :
    ∀ (st : LexState) (x : Char), x ∈ stateText (format.foldl lexStep st) →
      x ∈ stateText st ∨ x ∈ format ∨ x = '{' := by
  induction format with
  | nil => intro st x hx; exact Or.inl hx
  | cons c cs ih =>
    intro st x hx
    simp only [List.foldl_cons] at hx
    rcases ih _ x hx with h | h | h
    · rcases stateText_lexStep st c x h with h1 | h1 | h1
      · exact Or.inl h1
      · exact Or.inr (Or.inl (by simp [h1]))
      · exact Or.inr (Or.inr h1)
    · exact Or.inr (Or.inl (List.mem_cons_of_mem _ h))
    · exact Or.inr (Or.inr h)

/-- The literal text of a parsed template is made of characters of the
format. -/
theorem mem_nodeTexts_Parse (format : Str) (tmpl : Template)
    (hp : Parse format = some tmpl) (x : Char) (hx : x ∈ nodeTexts tmpl) :
    x ∈ format ∨ x = '{' := by
  unfold Parse at hp
  have key := stateText_foldl format (LexState.text [] []) x
  generalize List.foldl lexStep (LexState.text [] []) format = st at hp key
  have hst : x ∈ stateText st ∨ x = '{' := by
    cases st with
    | text nodes acc =>
      simp only [lexEnd, Option.some.injEq] at hp
      subst hp
      rw [nodeTexts_flushText] at hx
      exact Or.inl hx
    | leftBrace nodes acc =>
      simp only [lexEnd, Option.some.injEq] at hp
      subst hp
      rw [nodeTexts_flushText] at hx
      simp only [stateText, List.mem_append, List.mem_singleton] at hx ⊢
      rcases hx with h | h | h
      · exact Or.inl (Or.inl h)
      · exact Or.inl (Or.inr h)
      · exact Or.inr h
    | action nodes => simp [lexEnd] at hp
    | dot nodes => simp [lexEnd] at hp
    | field nodes name => simp [lexEnd] at hp
    | afterField nodes name => simp [lexEnd] at hp
    | rightBrace nodes name => simp [lexEnd] at hp
    | failed => simp [lexEnd] at hp
  rcases hst with h | h
  · rcases key h with h1 | h1 | h1
    · simp [stateText, nodeTexts] at h1
    · exact Or.inl h1
    · exact Or.inr h1
  · exact Or.inr h

/-- A character of an expansion is literal text of the template, a character
of a value of the entry, or a character of `<no value>`. -/
theorem mem_Execute (tmpl : Template) (e : Entry) (x : Char) (hx : x ∈ Execute tmpl e) :
    x ∈ nodeTexts tmpl ∨ (∃ k v, mapIndex e k = some v ∧ x ∈ v) ∨ x ∈ noValue := by
  induction tmpl with
  | nil => simp [Execute] at hx
  | cons n t ih =>
    simp only [Execute, List.mem_append] at hx
    rcases hx with h | h
    · cases n with
      | text s0 =>
        simp only [execNode] at h
        exact Or.inl (by simp [nodeTexts, h])
      | field name =>
        simp only [execNode] at h
        cases hm : mapIndex e name with
        | none => rw [hm] at h; exact Or.inr (Or.inr h)
        | some v =>
          rw [hm] at h
          exact Or.inr (Or.inl ⟨name, v, hm, h⟩)
    · rcases ih h with h1 | h1
      · left
        cases n <;> simp [nodeTexts, h1]
      · exact Or.inr h1

/-- A reference to a key that the entry lacks writes `<no value>`. -/
theorem Execute_markUnknown (headers : List Str) (tmpl : Template) (e : Entry)
    (he : ∀ k, k ∉ headers → mapIndex e k = none) :
    Execute tmpl e = Execute (tmpl.map (markUnknown headers)) e := by
  induction tmpl with
  | nil => rfl
  | cons n t ih =>
    cases n with
    | text s0 => simp [markUnknown, Execute, ih]
    | field name =>
      by_cases hk : name ∈ headers
      · simp [markUnknown, hk, Execute, ih]
      · simp [markUnknown, hk, Execute, execNode, he name hk, ih]

/-- The model of the library parses the format with a newline appended when
it parses the format, and the template then writes the expansion of the
format followed by the newline. -/
theorem textTemplate_append_newline (format : Str) (tmpl : Template)
    (hp : Parse format = some tmpl) :
    ∃ exec, textTemplate (format ++ ['\n']) = some exec
      ∧ ∀ e, exec e = Execute tmpl e ++ ['\n'] := by
  obtain ⟨t, ht, hexec⟩ := Parse_append_newline format tmpl hp
  exact ⟨Execute t, by simp [textTemplate, ht], hexec⟩

/-! ## What the tab writer prints -/

/-- The pieces of a split are made of characters of the string. -/
theorem mem_of_mem_Split (s : Str) (sep : Char) :
    ∀ x ∈ Split s sep, ∀ c ∈ x, c ∈ s := by
  induction s with
  | nil => simp [Split]
  | cons d ds ih =>
    by_cases h : d = sep
    · subst h
      rw [Split_cons_sep]
      intro x hx c hc
      rcases List.mem_cons.1 hx with rfl | hx
      · simp at hc
      · exact List.mem_cons_of_mem _ (ih x hx c hc)
    · obtain ⟨p, ps, h1, h2⟩ := Split_cons_ne d ds sep h
      rw [h2]
      rw [h1] at ih
      intro x hx c hc
      rcases List.mem_cons.1 hx with rfl | hx
      · rcases List.mem_cons.1 hc with rfl | hc
        · exact List.mem_cons_self _ _
        · exact List.mem_cons_of_mem _ (ih p (List.mem_cons_self _ _) c hc)
      · exact List.mem_cons_of_mem _ (ih x (List.mem_cons_of_mem _ hx) c hc)

/-- A line without tab and vertical tab is one cell. -/
theorem splitCells_of_no_cellEnd (s : Str) (h : ∀ c ∈ s, isCellEnd c = false) :
    splitCells s = [s] := by
  induction s with
  | nil => rfl
  | cons c cs ih =>
    have hc : isCellEnd c = false := h c (List.mem_cons_self _ _)
    have hcs := ih (fun x hx => h x (List.mem_cons_of_mem _ hx))
    simp [splitCells, hc, hcs]

/-- The open line without tab and vertical tab is one cell, or no cell when
it is empty. -/
theorem lastLineCells_of_no_cellEnd (s : Str) (h : ∀ c ∈ s, isCellEnd c = false) :
    lastLineCells s = if s = [] then [] else [s] := by
  unfold lastLineCells
  rw [splitCells_of_no_cellEnd s h]
  by_cases hs : s = []
  · simp [hs]
  · simp [hs]

/-- Lines of one cell are printed as they are. -/
theorem formatFrom_of_no_cellEnd (tw : TabWriter) (ls : List Str)
    (h : ∀ l ∈ ls, ∀ c ∈ l, isCellEnd c = false) :
    ∀ before, formatFrom tw before (cellLines ls) = ls := by
  induction ls with
  | nil => intro before; rfl
  | cons l rest ih =>
    intro before
    have hl := h l (List.mem_cons_self _ _)
    cases rest with
    | nil =>
      simp only [cellLines, lastLineCells_of_no_cellEnd l hl]
      by_cases hs : l = []
      · simp [hs, formatFrom, writeCells]
      · simp [hs, formatFrom, writeCells]
    | cons l' rest' =>
      simp only [cellLines, splitCells_of_no_cellEnd l hl, formatFrom, writeCells]
      rw [ih (fun x hx => h x (List.mem_cons_of_mem _ hx))]

/-- A text without tab, vertical tab and form feed passes through the tab
writer unchanged. -/
theorem tabwriterFlush_of_plain (tw : TabWriter) (text : Str)
    (h : ∀ c ∈ text, isCellEnd c = false ∧ c ≠ '\x0c') :
    tabwriterFlush tw text = text := by
  unfold tabwriterFlush
  rw [Split_of_not_mem text '\x0c' (fun hm => (h _ hm).2 rfl)]
  simp only [writeSections, formatSection]
  rw [formatFrom_of_no_cellEnd tw (Split text '\n')
    (fun l hl c hc => (h c (mem_of_mem_Split text '\n' l hl c hc)).1)]
  exact Join_Split text '\n'

theorem mem_concatAll (ls : List Str) (c : Char) (hc : c ∈ concatAll ls) :
    ∃ l ∈ ls, c ∈ l := by
  induction ls with
  | nil => simp [concatAll] at hc
  | cons l rest ih =>
    simp only [concatAll, List.mem_append] at hc
    rcases hc with hc | hc
    · exact ⟨l, List.mem_cons_self _ _, hc⟩
    · obtain ⟨x, hx, hcx⟩ := ih hc
      exact ⟨x, List.mem_cons_of_mem _ hx, hcx⟩

/-- A single line holds nothing the tab writer pads or breaks at. -/
theorem singleLine_plain (s : Str) (hs : singleLine s) :
    ∀ c ∈ s, isCellEnd c = false ∧ c ≠ '\x0c' := by
  intro c hc
  rw [hs.1] at hc
  rcases List.mem_append.1 hc with hc | hc
  · have := hs.2 c hc
    simp only [isLayoutChar, Bool.or_eq_false_iff, decide_eq_false_iff_not] at this
    exact ⟨by simp [isCellEnd, this.1.1.1, this.1.1.2], this.2⟩
  · simp only [List.mem_singleton] at hc
    subst hc
    exact ⟨by decide, by decide⟩

/-! ## Template mode -/

theorem Forall₂_mem_right {α β : Type} (R : α → β → Prop) (l₁ : List α) (l₂ : List β)
    (h : List.Forall₂ R l₁ l₂) : ∀ b ∈ l₂, ∃ a ∈ l₁, R a b := by
  induction h with
  | nil => intro b hb; simp at hb
  | cons hab _ ih =>
    intro b hb
    rcases List.mem_cons.1 hb with rfl | hb
    · exact ⟨_, List.mem_cons_self _ _, hab⟩
    · obtain ⟨a, ha, hr⟩ := ih b hb
      exact ⟨a, List.mem_cons_of_mem _ ha, hr⟩

/-- The entries of the rows are determined by the rows. -/
theorem entries_unique (headers : List Str) (rows : List (List Str)) (es es' : List Entry)
    (h : List.Forall₂ (fun row entry => buildEntry headers row = .ok entry) rows es)
    (h' : List.Forall₂ (fun row entry => buildEntry headers row = .ok entry) rows es') :
    es = es' := by
  induction h generalizing es' with
  | nil => cases h'; rfl
  | cons hab _ ih =>
    cases h' with
    | cons hab' hrest' =>
      rw [hab] at hab'
      simp only [Except.ok.injEq] at hab'
      rw [hab', ih _ hrest']

/-- Template mode, with any template library: `main` writes to the tab
writer, row after row, what the template built from the format and a
newline writes for the entry of the row. -/
theorem renderWith_template (engine : TemplateEngine) (exec : Entry → Str)
    (format : Str) (gaData : GaData)
    (hf : format ≠ []) (hp : engine (format ++ ['\n']) = some exec)
    (hlen : ∀ row ∈ gaData.Rows, gaData.ColumnHeaders.length ≤ row.length) :
    ∃ entries,
      List.Forall₂ (fun row entry =>
        buildEntry (displayHeaders gaData.ColumnHeaders) row = .ok entry) gaData.Rows entries
      ∧ renderWith engine format gaData = .ok (concatAll (entries.map exec)) := by
  have h' : ∀ row ∈ gaData.Rows,
      (displayHeaders gaData.ColumnHeaders).length ≤ row.length := by
    intro row hrow
    rw [displayHeaders_length]
    exact hlen row hrow
  obtain ⟨entries, hes, hout⟩ :=
    renderRowsWith_template engine exec format (displayHeaders gaData.ColumnHeaders)
      gaData.Rows hf hp h'
  refine ⟨entries, hes, ?_⟩
  simp only [renderWith, if_neg hf]
  rw [hout, List.nil_append]

/-- The model of the library on a format without newline, tab, vertical tab
and form feed: the template that `main` builds writes, for an entry whose
values hold none of these either, a single line, which is the expansion of
the format. -/
theorem textTemplate_singleLine (format : Str) (tmpl : Template)
    (hp : Parse format = some tmpl) (hfmt : ∀ c ∈ format, isLayoutChar c = false) :
    ∃ exec, textTemplate (format ++ ['\n']) = some exec
      ∧ ∀ entry, (∀ k v, mapIndex entry k = some v → ∀ c ∈ v, isLayoutChar c = false) →
          exec entry = Execute tmpl entry ++ ['\n'] ∧ singleLine (exec entry) := by
  obtain ⟨exec, hexec, hout⟩ := textTemplate_append_newline format tmpl hp
  refine ⟨exec, hexec, ?_⟩
  intro entry hval
  refine ⟨hout entry, ?_⟩
  rw [hout entry]
  refine ⟨by simp, ?_⟩
  intro c hc
  rw [List.dropLast_concat] at hc
  rcases mem_Execute tmpl entry c hc with h1 | ⟨k, v, hkv, hv⟩ | h1
  · rcases mem_nodeTexts_Parse format tmpl hp c h1 with h2 | h2
    · exact hfmt c h2
    · rw [h2]; decide
  · exact hval k v hkv c hv
  · have hno : ∀ d ∈ noValue, isLayoutChar d = false := by decide
    exact hno c h1

/-- Rows that each write a single line: the tab writer prints what was
written to it, and the lines printed are the lines written. -/
theorem mainOutputWith_of_singleLines (engine : TemplateEngine) (exec : Entry → Str)
    (format : Str) (gaData : GaData) (entries : List Entry)
    (hout : renderWith engine format gaData = .ok (concatAll (entries.map exec)))
    (hsl : ∀ entry ∈ entries, singleLine (exec entry)) :
    mainOutputWith engine format gaData = .ok (concatAll (entries.map exec))
    ∧ Split (concatAll (entries.map exec)) '\n'
        = entries.map (fun entry => (exec entry).dropLast) ++ [[]] := by
  have hplain : ∀ c ∈ concatAll (entries.map exec), isCellEnd c = false ∧ c ≠ '\x0c' := by
    intro c hc
    obtain ⟨l, hl, hcl⟩ := mem_concatAll _ c hc
    obtain ⟨entry, hentry, rfl⟩ := List.mem_map.1 hl
    exact singleLine_plain _ (hsl entry hentry) c hcl
  have hlines : entries.map exec
      = (entries.map (fun entry => (exec entry).dropLast)).map (fun l => l ++ ['\n']) := by
    rw [List.map_map]
    apply List.map_congr_left
    intro entry hentry
    exact (hsl entry hentry).1
  refine ⟨?_, ?_⟩
  · simp only [mainOutputWith, hout]
    rw [tabwriterFlush_of_plain _ _ hplain]
  · rw [hlines]
    apply Split_concatAll_lines
    intro l hl hmem
    obtain ⟨entry, hentry, rfl⟩ := List.mem_map.1 hl
    have := (hsl entry hentry).2 '\n' hmem
    exact absurd this (by decide)

/-- C4 (as amended): for every report in which each row is as long as the
list of column headers, and every non-empty format for which the template
that `main` builds (the format followed by a newline) parses and writes,
for the entry of each row, a single line (a text that ends with a newline
and holds no other newline, no tab, no vertical tab and no form feed),
whatever the template library, template mode prints no header line and
exactly `rows.length` lines, the `k`-th line being what the template writes
for the entry of the `k`-th row. -/
theorem mainOutput_template_lines (engine : TemplateEngine) (exec : Entry → Str)
    (format : Str) (gaData : GaData)
    (hf : format ≠ []) (hp : engine (format ++ ['\n']) = some exec)
    (hinv : ∀ row ∈ gaData.Rows, row.length = gaData.ColumnHeaders.length)
    (hline : ∀ row ∈ gaData.Rows, ∀ entry,
      buildEntry (displayHeaders gaData.ColumnHeaders) row = .ok entry →
        singleLine (exec entry)) :
    ∃ out entries, mainOutputWith engine format gaData = .ok out
      ∧ List.Forall₂ (fun row entry =>
          buildEntry (displayHeaders gaData.ColumnHeaders) row = .ok entry) gaData.Rows entries
      ∧ out = concatAll (entries.map exec)
      ∧ Split out '\n' = entries.map (fun entry => (exec entry).dropLast) ++ [[]]
      ∧ (Split out '\n').length = gaData.Rows.length + 1 := by
  obtain ⟨entries, hes, hout⟩ := renderWith_template engine exec format gaData hf hp
    (fun row hrow => le_of_eq (hinv row hrow).symm)
  have hsl : ∀ entry ∈ entries, singleLine (exec entry) := by
    intro entry hentry
    obtain ⟨row, hrow, hbuild⟩ := Forall₂_mem_right _ _ _ hes entry hentry
    exact hline row hrow entry hbuild
  obtain ⟨hmain, hsplit⟩ :=
    mainOutputWith_of_singleLines engine exec format gaData entries hout hsl
  refine ⟨concatAll (entries.map exec), entries, hmain, hes, rfl, hsplit, ?_⟩
  rw [hsplit, List.length_append, List.length_map, ← List.Forall₂.length_eq hes]
  rfl

/-- The scenario of C4: the format `{{.date}}: {{.sessions}}` gives the two
lines `2024-01-01: 10` and `2024-01-02: 20`. -/
theorem mainOutput_template_lines_witness :
    ∃ out, mainOutput "{{.date}}: {{.sessions}}".toList
        ⟨[⟨"date".toList⟩, ⟨"sessions".toList⟩],
          [["2024-01-01".toList, "10".toList], ["2024-01-02".toList, "20".toList]]⟩ = .ok out
      ∧ Split out '\n' = ["2024-01-01: 10".toList, "2024-01-02: 20".toList, []]
      ∧ (Split out '\n').length = 2 + 1 := by
  obtain ⟨exec, hexec, hsl⟩ := textTemplate_singleLine "{{.date}}: {{.sessions}}".toList
    [Node.field "date".toList, Node.text ": ".toList, Node.field "sessions".toList]
    (by decide) (by decide)
  obtain ⟨out, _, h1, _, _, _, h5⟩ := mainOutput_template_lines textTemplate exec
    "{{.date}}: {{.sessions}}".toList
    ⟨[⟨"date".toList⟩, ⟨"sessions".toList⟩],
      [["2024-01-01".toList, "10".toList], ["2024-01-02".toList, "20".toList]]⟩
    (by decide) hexec (by decide)
    (fun row hrow entry he => (hsl entry (fun k v hkv c hc => by
      have hv := buildEntry_value _ row entry he k v hkv
      have hclean : ∀ r ∈ [["2024-01-01".toList, "10".toList],
          ["2024-01-02".toList, "20".toList]], ∀ x ∈ r, ∀ d ∈ x, isLayoutChar d = false := by
        decide
      exact hclean row hrow v hv c hc)).2)
  refine ⟨out, h1, ?_, h5⟩
  have h6 : mainOutput "{{.date}}: {{.sessions}}".toList
      ⟨[⟨"date".toList⟩, ⟨"sessions".toList⟩],
        [["2024-01-01".toList, "10".toList], ["2024-01-02".toList, "20".toList]]⟩
      = .ok "2024-01-01: 10\n2024-01-02: 20\n".toList := by decide
  have h7 : mainOutput "{{.date}}: {{.sessions}}".toList
      ⟨[⟨"date".toList⟩, ⟨"sessions".toList⟩],
        [["2024-01-01".toList, "10".toList], ["2024-01-02".toList, "20".toList]]⟩
      = .ok out := h1
  rw [h6] at h7
  simp only [Except.ok.injEq] at h7
  rw [← h7]
  decide

/-- What is printed at a report refutes the description of template mode
when the lines printed are not the expansions. -/
theorem not_emitsTemplateLines (format : Str) (tmpl : Template) (gaData : GaData)
    (out : Str) (entries : List Entry)
    (hout : mainOutput format gaData = .ok out)
    (hes : List.Forall₂ (fun row entry =>
        buildEntry (displayHeaders gaData.ColumnHeaders) row = .ok entry) gaData.Rows entries)
    (hne : Split out '\n' ≠ entries.map (Execute tmpl) ++ [[]]) :
    ¬ emitsTemplateLines format tmpl gaData := by
  rintro ⟨out', entries', h1, h2, h3⟩
  rw [hout] at h1
  simp only [Except.ok.injEq] at h1
  rw [← h1, entries_unique _ _ _ _ h2 hes] at h3
  exact hne h3

/-- C4 as stated fails: a newline in the format or in a value gives more
lines than rows; a tab in the format is printed as the padding of a column
(two tabs after `date` next to the longer `2024-01-01`), a vertical tab is
printed as a tab and a form feed as a newline, so that the lines printed
are not the expansions of the template. -/
theorem mainOutput_template_layout_chars :
    (¬ ∀ (format : Str) (tmpl : Template) (gaData : GaData),
      format ≠ [] → Parse format = some tmpl →
      (∀ node ∈ tmpl, knownNode (displayHeaders gaData.ColumnHeaders) node = true) →
      (∀ row ∈ gaData.Rows, row.length = gaData.ColumnHeaders.length) →
      emitsTemplateLines format tmpl gaData)
    ∧ (¬ ∀ (format : Str) (tmpl : Template) (gaData : GaData),
      format ≠ [] → Parse format = some tmpl →
      (∀ node ∈ tmpl, knownNode (displayHeaders gaData.ColumnHeaders) node = true) →
      (∀ row ∈ gaData.Rows, row.length = gaData.ColumnHeaders.length) →
      '\n' ∉ format →
      emitsTemplateLines format tmpl gaData)
    ∧ (¬ ∀ (format : Str) (tmpl : Template) (gaData : GaData),
      format ≠ [] → Parse format = some tmpl →
      (∀ node ∈ tmpl, knownNode (displayHeaders gaData.ColumnHeaders) node = true) →
      (∀ row ∈ gaData.Rows, row.length = gaData.ColumnHeaders.length) →
      '\n' ∉ format → (∀ row ∈ gaData.Rows, ∀ v ∈ row, '\n' ∉ v) →
      emitsTemplateLines format tmpl gaData)
    ∧ (¬ ∀ (format : Str) (tmpl : Template) (gaData : GaData),
      format ≠ [] → Parse format = some tmpl →
      (∀ node ∈ tmpl, knownNode (displayHeaders gaData.ColumnHeaders) node = true) →
      (∀ row ∈ gaData.Rows, row.length = gaData.ColumnHeaders.length) →
      '\n' ∉ format → (∀ row ∈ gaData.Rows, ∀ v ∈ row, '\n' ∉ v) →
      '\t' ∉ format → (∀ row ∈ gaData.Rows, ∀ v ∈ row, '\t' ∉ v) →
      emitsTemplateLines format tmpl gaData)
    ∧ (¬ ∀ (format : Str) (tmpl : Template) (gaData : GaData),
      format ≠ [] → Parse format = some tmpl →
      (∀ node ∈ tmpl, knownNode (displayHeaders gaData.ColumnHeaders) node = true) →
      (∀ row ∈ gaData.Rows, row.length = gaData.ColumnHeaders.length) →
      '\n' ∉ format → (∀ row ∈ gaData.Rows, ∀ v ∈ row, '\n' ∉ v) →
      '\t' ∉ format → (∀ row ∈ gaData.Rows, ∀ v ∈ row, '\t' ∉ v) →
      '\x0b' ∉ format → (∀ row ∈ gaData.Rows, ∀ v ∈ row, '\x0b' ∉ v) →
      emitsTemplateLines format tmpl gaData) := by
  refine ⟨?_, ?_, ?_, ?_, ?_⟩
  · intro h
    exact not_emitsTemplateLines "{{.date}}\n{{.sessions}}".toList
      [Node.field "date".toList, Node.text "\n".toList, Node.field "sessions".toList]
      ⟨[⟨"date".toList⟩, ⟨"sessions".toList⟩], [["2024-01-01".toList, "10".toList]]⟩
      "2024-01-01\n10\n".toList
      [[("sessions".toList, "10".toList), ("date".toList, "2024-01-01".toList)]]
      (by decide) (List.Forall₂.cons (by decide) List.Forall₂.nil) (by decide)
      (h _ _ _ (by decide) (by decide) (by decide) (by decide))
  · intro h
    exact not_emitsTemplateLines "{{.pageTitle}}".toList
      [Node.field "pageTitle".toList]
      ⟨[⟨"ga:pageTitle".toList⟩], [["a\nb".toList]]⟩
      "a\nb\n".toList
      [[("pageTitle".toList, "a\nb".toList)]]
      (by decide) (List.Forall₂.cons (by decide) List.Forall₂.nil) (by decide)
      (h _ _ _ (by decide) (by decide) (by decide) (by decide) (by decide))
  · intro h
    exact not_emitsTemplateLines "{{.date}}\t{{.sessions}}".toList
      [Node.field "date".toList, Node.text "\t".toList, Node.field "sessions".toList]
      ⟨[⟨"date".toList⟩, ⟨"sessions".toList⟩],
        [["date".toList, "sessions".toList], ["2024-01-01".toList, "10".toList]]⟩
      "date\t\tsessions\n2024-01-01\t10\n".toList
      [[("sessions".toList, "sessions".toList), ("date".toList, "date".toList)],
        [("sessions".toList, "10".toList), ("date".toList, "2024-01-01".toList)]]
      (by decide)
      (List.Forall₂.cons (by decide) (List.Forall₂.cons (by decide) List.Forall₂.nil))
      (by decide)
      (h _ _ _ (by decide) (by decide) (by decide) (by decide) (by decide) (by decide))
  · intro h
    exact not_emitsTemplateLines "{{.date}}\x0b{{.sessions}}".toList
      [Node.field "date".toList, Node.text "\x0b".toList, Node.field "sessions".toList]
      ⟨[⟨"date".toList⟩, ⟨"sessions".toList⟩], [["2024-01-01".toList, "10".toList]]⟩
      "2024-01-01\t10\n".toList
      [[("sessions".toList, "10".toList), ("date".toList, "2024-01-01".toList)]]
      (by decide) (List.Forall₂.cons (by decide) List.Forall₂.nil) (by decide)
      (h _ _ _ (by decide) (by decide) (by decide) (by decide) (by decide) (by decide)
        (by decide) (by decide))
  · intro h
    exact not_emitsTemplateLines "{{.date}}\x0c{{.sessions}}".toList
      [Node.field "date".toList, Node.text "\x0c".toList, Node.field "sessions".toList]
      ⟨[⟨"date".toList⟩, ⟨"sessions".toList⟩], [["2024-01-01".toList, "10".toList]]⟩
      "2024-01-01\n10\n".toList
      [[("sessions".toList, "10".toList), ("date".toList, "2024-01-01".toList)]]
      (by decide) (List.Forall₂.cons (by decide) List.Forall₂.nil) (by decide)
      (h _ _ _ (by decide) (by decide) (by decide) (by decide) (by decide) (by decide)
        (by decide) (by decide) (by decide) (by decide))

/-- C5 (as amended): in template mode, for every report whose rows are as
long as the list of column headers, rendering does not fail, whatever the
template library and whatever names the format refers to, as soon as the
format followed by a newline parses: each row writes to the tab writer what
the template writes for its entry, in which a name that is no display
header is an absent key.  For a template of literal text and field
references `{{.name}}`, the reference to an absent key is written as the
text `<no value>`, not as the empty string: each row writes the expansion of
the template with these references replaced by `<no value>`, followed by the
newline; and when neither the format nor a value holds a newline, a tab, a
vertical tab or a form feed, what is written is what is printed. -/
theorem render_unknown_field (format : Str) (gaData : GaData)
    (hf : format ≠ [])
    (hinv : ∀ row ∈ gaData.Rows, row.length = gaData.ColumnHeaders.length) :
    (∀ (engine : TemplateEngine) (exec : Entry → Str),
      engine (format ++ ['\n']) = some exec →
      ∃ entries,
        List.Forall₂ (fun row entry =>
          buildEntry (displayHeaders gaData.ColumnHeaders) row = .ok entry) gaData.Rows entries
        ∧ renderWith engine format gaData = .ok (concatAll (entries.map exec))
        ∧ ∀ entry ∈ entries, ∀ name, name ∉ displayHeaders gaData.ColumnHeaders →
            mapIndex entry name = none)
    ∧ (∀ tmpl : Template, Parse format = some tmpl →
      ∃ entries,
        List.Forall₂ (fun row entry =>
          buildEntry (displayHeaders gaData.ColumnHeaders) row = .ok entry) gaData.Rows entries
        ∧ render format gaData = .ok (concatAll (entries.map (fun entry =>
            Execute (tmpl.map (markUnknown (displayHeaders gaData.ColumnHeaders))) entry
              ++ ['\n'])))
        ∧ (∀ entry ∈ entries, ∀ name, name ∉ displayHeaders gaData.ColumnHeaders →
            execNode entry (Node.field name) = noValue)
        ∧ ((∀ c ∈ format, isLayoutChar c = false) →
            (∀ row ∈ gaData.Rows, ∀ v ∈ row, ∀ c ∈ v, isLayoutChar c = false) →
            mainOutput format gaData = render format gaData)) := by
  have hlen : ∀ row ∈ gaData.Rows, gaData.ColumnHeaders.length ≤ row.length :=
    fun row hrow => le_of_eq (hinv row hrow).symm
  have habsent : ∀ entries,
      List.Forall₂ (fun row entry =>
        buildEntry (displayHeaders gaData.ColumnHeaders) row = .ok entry) gaData.Rows entries →
      ∀ entry ∈ entries, ∀ name, name ∉ displayHeaders gaData.ColumnHeaders →
        mapIndex entry name = none := by
    intro entries hes entry hentry name hname
    obtain ⟨row, _, hbuild⟩ := Forall₂_mem_right _ _ _ hes entry hentry
    exact buildEntry_of_not_mem _ row entry hbuild name hname
  refine ⟨?_, ?_⟩
  · intro engine exec hp
    obtain ⟨entries, hes, hout⟩ := renderWith_template engine exec format gaData hf hp hlen
    exact ⟨entries, hes, hout, habsent entries hes⟩
  · intro tmpl hp
    obtain ⟨exec, hexec, hexp⟩ := textTemplate_append_newline format tmpl hp
    obtain ⟨entries, hes, hout⟩ :=
      renderWith_template textTemplate exec format gaData hf hexec hlen
    refine ⟨entries, hes, ?_, ?_, ?_⟩
    · unfold render
      rw [hout]
      congr 2
      apply List.map_congr_left
      intro entry hentry
      rw [hexp entry, Execute_markUnknown _ tmpl entry (habsent entries hes entry hentry)]
    · intro entry hentry name hname
      simp [execNode, habsent entries hes entry hentry name hname]
    · intro hfmt hval
      obtain ⟨exec', hexec', hsl'⟩ := textTemplate_singleLine format tmpl hp hfmt
      rw [hexec] at hexec'
      simp only [Option.some.injEq] at hexec'
      subst hexec'
      have hsl : ∀ entry ∈ entries, singleLine (exec entry) := by
        intro entry hentry
        obtain ⟨row, hrow, hbuild⟩ := Forall₂_mem_right _ _ _ hes entry hentry
        exact (hsl' entry (fun k v hkv c hc =>
          hval row hrow v (buildEntry_value _ row entry hbuild k v hkv) c hc)).2
      have hmain :=
        (mainOutputWith_of_singleLines textTemplate exec format gaData entries hout hsl).1
      unfold mainOutput render
      rw [hmain, hout]

/-- An instance of C5: the format `{{.date}}|{{.nosuch}}|` on two rows. -/
theorem render_unknown_field_witness :
    render "{{.date}}|{{.nosuch}}|".toList
        ⟨[⟨"ga:date".toList⟩], [["2024-01-01".toList], ["2024-01-02".toList]]⟩
      = .ok "2024-01-01|<no value>|\n2024-01-02|<no value>|\n".toList := by
  obtain ⟨entries, hes, hout, _, _⟩ := (render_unknown_field "{{.date}}|{{.nosuch}}|".toList
    ⟨[⟨"ga:date".toList⟩], [["2024-01-01".toList], ["2024-01-02".toList]]⟩
    (by decide) (by decide)).2
    [Node.field "date".toList, Node.text "|".toList, Node.field "nosuch".toList,
      Node.text "|".toList] (by decide)
  have he : entries = [[("date".toList, "2024-01-01".toList)],
      [("date".toList, "2024-01-02".toList)]] :=
    entries_unique _ _ _ _ hes
      (List.Forall₂.cons (by decide) (List.Forall₂.cons (by decide) List.Forall₂.nil))
  rw [hout, he]
  decide

/-- C5 as stated fails: the reference to a name that is no display header is
not written as the empty string; with the format `{{.date}}|{{.nosuch}}|`
the row writes, and the program prints, `2024-01-01|<no value>|`. -/
theorem render_unknown_field_not_empty :
    (¬ ∀ (format : Str) (tmpl : Template) (gaData : GaData),
      format ≠ [] → Parse format = some tmpl →
      (∀ row ∈ gaData.Rows, row.length = gaData.ColumnHeaders.length) →
      ∃ entries,
        List.Forall₂ (fun row entry =>
          buildEntry (displayHeaders gaData.ColumnHeaders) row = .ok entry) gaData.Rows entries
        ∧ render format gaData = .ok (concatAll (entries.map (fun entry =>
            Execute (tmpl.filter (knownNode (displayHeaders gaData.ColumnHeaders))) entry
              ++ ['\n']))))
    ∧ mainOutput "{{.date}}|{{.nosuch}}|".toList
        ⟨[⟨"ga:date".toList⟩], [["2024-01-01".toList]]⟩
      = .ok "2024-01-01|<no value>|\n".toList := by
  refine ⟨?_, by decide⟩
  intro h
  obtain ⟨entries, hes, hout⟩ := h "{{.date}}|{{.nosuch}}|".toList
    [Node.field "date".toList, Node.text "|".toList, Node.field "nosuch".toList,
      Node.text "|".toList]
    ⟨[⟨"ga:date".toList⟩], [["2024-01-01".toList]]⟩ (by decide) (by decide) (by decide)
  have he : entries = [[("date".toList, "2024-01-01".toList)]] :=
    entries_unique _ _ _ _ hes (List.Forall₂.cons (by decide) List.Forall₂.nil)
  rw [he] at hout
  exact absurd hout (by decide)

/-! ## The tab writer -/

/-- C9 (as amended): the tab writer of `main` is set up with a minimum cell
width of 0, a tab width of 8, a padding of 1, the tab as padding character
and no flags; the tab ends a cell. -/
theorem mainTabWriter_settings :
    mainTabWriter.minwidth = 0 ∧ mainTabWriter.tabwidth = 8 ∧ mainTabWriter.padding = 1
    ∧ mainTabWriter.padchar = '\t' ∧ mainTabWriter.flags = 0 ∧ cellDelimiter = '\t' := by
  refine ⟨rfl, rfl, rfl, rfl, rfl, rfl⟩

/-- C9 as stated fails: the minimum cell width is not 8 and the padding
character is not the space. -/
theorem mainTabWriter_not_minwidth8_space :
    ¬ (mainTabWriter.minwidth = 8 ∧ mainTabWriter.padding = 1
        ∧ mainTabWriter.padchar = ' ' ∧ cellDelimiter = '\t') := by
  decide

/-! ## The callback handler -/

/-- The value of an absent form key is the empty string. -/
theorem FormValue_absent (req : Request) (key : Str)
    (h : ∀ v, (key, v) ∉ req.Form) : FormValue req key = [] := by
  unfold FormValue
  cases hf : req.Form.find? (fun p => p.1 = key) with
  | none => rfl
  | some p =>
    exfalso
    have hm := List.mem_of_find?_eq_some hf
    have hk := List.find?_some hf
    simp only [decide_eq_true_eq] at hk
    apply h p.2
    rw [← hk]
    exact hm

/-- C6 (as amended): a request for `/favicon.ico` gets a plain 404, with or
without a `code`; any other request with a non-empty `code` gets status 200
with the line `Authorized.` as body and its code is sent to the waiting
routine; any other request, its `code` absent or empty, gets a 500 and ends
the process. -/
theorem callbackHandler_classifies (req : Request) :
    (req.Path = "/favicon.ico".toList →
      callbackHandler req =
        { response := httpError "Not Found".toList 404, sent := none, fatal := false })
    ∧ (req.Path ≠ "/favicon.ico".toList → FormValue req "code".toList ≠ [] →
      callbackHandler req =
        { response := { Status := 200, ContentType := "text/plain".toList,
                        Body := "Authorized.\n".toList },
          sent := some (FormValue req "code".toList), fatal := false })
    ∧ (req.Path ≠ "/favicon.ico".toList →
      (FormValue req "code".toList = [] ∨ ∀ v, ("code".toList, v) ∉ req.Form) →
      callbackHandler req =
        { response := httpError "Internal Server Error".toList 500, sent := none,
          fatal := true }) := by
  refine ⟨?_, ?_, ?_⟩
  · intro h
    simp [callbackHandler, h]
  · intro h1 h2
    simp only [callbackHandler, if_neg h1, ne_eq, h2, not_false_eq_true, if_true]
    rfl
  · intro h1 h2
    have h3 : FormValue req "code".toList = [] := by
      rcases h2 with h2 | h2
      · exact h2
      · exact FormValue_absent req _ h2
    simp only [callbackHandler, if_neg h1, h3, ne_eq, not_true_eq_false, if_false]

/-- Instances of C6: the authorization redirect, a request without code, and
the favicon probe. -/
theorem callbackHandler_classifies_witness :
    (callbackHandler { Path := "/".toList, Form := [("code".toList, "4/abc".toList)] }).sent
        = some "4/abc".toList
    ∧ (callbackHandler { Path := "/".toList, Form := [] }).fatal = true
    ∧ (callbackHandler { Path := "/favicon.ico".toList, Form := [] }).response.Status = 404 := by
  refine ⟨?_, ?_, ?_⟩
  · rw [(callbackHandler_classifies
      { Path := "/".toList, Form := [("code".toList, "4/abc".toList)] }).2.1
      (by decide) (by decide)]
    decide
  · rw [(callbackHandler_classifies { Path := "/".toList, Form := [] }).2.2
      (by decide) (Or.inl (by decide))]
  · rw [(callbackHandler_classifies { Path := "/favicon.ico".toList, Form := [] }).1
      (by decide)]
    rfl

/-- C6 as stated fails: a request for `/favicon.ico` that carries a `code`
gets the 404 and its code is not delivered. -/
theorem callbackHandler_favicon_with_code :
    ¬ (∀ req : Request, (∃ v, ("code".toList, v) ∈ req.Form) →
        (callbackHandler req).response.Status = 200
        ∧ (callbackHandler req).sent = some (FormValue req "code".toList)) := by
  intro h
  have h1 := h { Path := "/favicon.ico".toList, Form := [("code".toList, "4/abc".toList)] }
    ⟨"4/abc".toList, by decide⟩
  exact absurd h1.1 (by decide)

/-! ## `prepareOAuthClient` -/

/-- C7: `prepareOAuthClient` calls `obtainToken` if and only if `useFresh` is
true or loading the cached token fails, and then with the approval prompt
of the configuration set to `"force"`; when `useFresh` is false and the
cached token loads, that token is wrapped into the transport and
`obtainToken` is not called; when loading fails the run goes on to
`obtainToken`, and only `obtainToken` can end it.  In each case the run is
given in full: when `useFresh` is true the cache is not read, the only call
is `obtainToken` with the forced configuration, and the transport wraps the
token and the configuration that `obtainToken` returns. -/
theorem prepareOAuthClient_fresh_iff (cache : Except Str Token)
    (obtainToken : Config → Option (Token × Config)) (config : Config) (useFresh : Bool) :
    ((∃ c, AuthEvent.obtainToken c ∈
        (prepareOAuthClient cache obtainToken config useFresh).events)
      ↔ (useFresh = true ∨ ∃ e, cache = .error e))
    ∧ (∀ c, AuthEvent.obtainToken c ∈
        (prepareOAuthClient cache obtainToken config useFresh).events →
        c = { config with ApprovalPrompt := "force".toList })
    ∧ (∀ tok, useFresh = false → cache = .ok tok →
        prepareOAuthClient cache obtainToken config useFresh =
          { events := [AuthEvent.loadCache],
            client := some { Token := tok, Config := config } })
    ∧ (∀ e, useFresh = false → cache = .error e →
        (prepareOAuthClient cache obtainToken config useFresh).events =
          [AuthEvent.loadCache,
            AuthEvent.obtainToken { config with ApprovalPrompt := "force".toList }]
        ∧ (prepareOAuthClient cache obtainToken config useFresh).client =
          (obtainToken { config with ApprovalPrompt := "force".toList }).map
            (fun r => { Token := r.1, Config := r.2 }))
    ∧ (useFresh = true →
        prepareOAuthClient cache obtainToken config useFresh =
          { events := [AuthEvent.obtainToken { config with ApprovalPrompt := "force".toList }],
            client := (obtainToken { config with ApprovalPrompt := "force".toList }).map
              (fun r => { Token := r.1, Config := r.2 }) }) := by
  cases useFresh <;> cases cache <;> simp only [prepareOAuthClient] <;>
    generalize obtainToken _ = r <;> cases r <;> simp

/-- Instances of C7.  With the cache file absent and `useFresh` false the
run loads, fails, and goes on to `obtainToken` with the prompt forced; with
`useFresh` true and a cache that would load, the cache is not read and the
transport wraps what `obtainToken` returns, not the cached token. -/
theorem prepareOAuthClient_fresh_iff_witness :
    prepareOAuthClient (.error "open auth_cache.json: no such file".toList)
        (fun c => some ({ AccessToken := "ya29".toList, RefreshToken := "1/r".toList },
          { c with RedirectURL := "http://127.0.0.1:4000".toList }))
        { ClientId := "id".toList, ClientSecret := "secret".toList, Scope := [],
          AuthURL := [], TokenURL := [], AccessType := "offline".toList,
          ApprovalPrompt := [], RedirectURL := [] } false
      = { events := [AuthEvent.loadCache,
            AuthEvent.obtainToken
              { ClientId := "id".toList, ClientSecret := "secret".toList, Scope := [],
                AuthURL := [], TokenURL := [], AccessType := "offline".toList,
                ApprovalPrompt := "force".toList, RedirectURL := [] }],
          client := some
            { Token := { AccessToken := "ya29".toList, RefreshToken := "1/r".toList },
              Config :=
                { ClientId := "id".toList, ClientSecret := "secret".toList, Scope := [],
                  AuthURL := [], TokenURL := [], AccessType := "offline".toList,
                  ApprovalPrompt := "force".toList,
                  RedirectURL := "http://127.0.0.1:4000".toList } } }
    ∧ prepareOAuthClient
        (.ok { AccessToken := "cached".toList, RefreshToken := "1/c".toList })
        (fun c => some ({ AccessToken := "ya29".toList, RefreshToken := "1/r".toList },
          { c with RedirectURL := "http://127.0.0.1:4000".toList }))
        { ClientId := "id".toList, ClientSecret := "secret".toList, Scope := [],
          AuthURL := [], TokenURL := [], AccessType := "offline".toList,
          ApprovalPrompt := [], RedirectURL := [] } true
      = { events := [AuthEvent.obtainToken
              { ClientId := "id".toList, ClientSecret := "secret".toList, Scope := [],
                AuthURL := [], TokenURL := [], AccessType := "offline".toList,
                ApprovalPrompt := "force".toList, RedirectURL := [] }],
          client := some
            { Token := { AccessToken := "ya29".toList, RefreshToken := "1/r".toList },
              Config :=
                { ClientId := "id".toList, ClientSecret := "secret".toList, Scope := [],
                  AuthURL := [], TokenURL := [], AccessType := "offline".toList,
                  ApprovalPrompt := "force".toList,
                  RedirectURL := "http://127.0.0.1:4000".toList } } }
    ∧ prepareOAuthClient
        (.ok { AccessToken := "cached".toList, RefreshToken := "1/c".toList })
        (fun c => some ({ AccessToken := "ya29".toList, RefreshToken := "1/r".toList },
          { c with RedirectURL := "http://127.0.0.1:4000".toList }))
        { ClientId := "id".toList, ClientSecret := "secret".toList, Scope := [],
          AuthURL := [], TokenURL := [], AccessType := "offline".toList,
          ApprovalPrompt := [], RedirectURL := [] } false
      = { events := [AuthEvent.loadCache],
          client := some
            { Token := { AccessToken := "cached".toList, RefreshToken := "1/c".toList },
              Config :=
                { ClientId := "id".toList, ClientSecret := "secret".toList, Scope := [],
                  AuthURL := [], TokenURL := [], AccessType := "offline".toList,
                  ApprovalPrompt := [], RedirectURL := [] } } } := by
  refine ⟨?_, ?_, ?_⟩
  · have h := (prepareOAuthClient_fresh_iff
      (.error "open auth_cache.json: no such file".toList)
      (fun c => some ({ AccessToken := "ya29".toList, RefreshToken := "1/r".toList },
        { c with RedirectURL := "http://127.0.0.1:4000".toList }))
      { ClientId := "id".toList, ClientSecret := "secret".toList, Scope := [],
        AuthURL := [], TokenURL := [], AccessType := "offline".toList,
        ApprovalPrompt := [], RedirectURL := [] } false).2.2.2.1
      "open auth_cache.json: no such file".toList rfl rfl
    cases hr : prepareOAuthClient (.error "open auth_cache.json: no such file".toList)
        (fun c => some ({ AccessToken := "ya29".toList, RefreshToken := "1/r".toList },
          { c with RedirectURL := "http://127.0.0.1:4000".toList }))
        { ClientId := "id".toList, ClientSecret := "secret".toList, Scope := [],
          AuthURL := [], TokenURL := [], AccessType := "offline".toList,
          ApprovalPrompt := [], RedirectURL := [] } false with
    | mk events client =>
      rw [hr] at h
      obtain ⟨h1, h2⟩ := h
      simp only at h1 h2
      rw [h1, h2]
      rfl
  · rw [(prepareOAuthClient_fresh_iff
      (.ok { AccessToken := "cached".toList, RefreshToken := "1/c".toList })
      (fun c => some ({ AccessToken := "ya29".toList, RefreshToken := "1/r".toList },
        { c with RedirectURL := "http://127.0.0.1:4000".toList }))
      { ClientId := "id".toList, ClientSecret := "secret".toList, Scope := [],
        AuthURL := [], TokenURL := [], AccessType := "offline".toList,
        ApprovalPrompt := [], RedirectURL := [] } true).2.2.2.2 rfl]
    rfl
  · rw [(prepareOAuthClient_fresh_iff
      (.ok { AccessToken := "cached".toList, RefreshToken := "1/c".toList })
      (fun c => some ({ AccessToken := "ya29".toList, RefreshToken := "1/r".toList },
        { c with RedirectURL := "http://127.0.0.1:4000".toList }))
      { ClientId := "id".toList, ClientSecret := "secret".toList, Scope := [],
        AuthURL := [], TokenURL := [], AccessType := "offline".toList,
        ApprovalPrompt := [], RedirectURL := [] } false).2.2.1
      { AccessToken := "cached".toList, RefreshToken := "1/c".toList } rfl rfl]

end GaReportCli
